import Mathlib

/-!
Verification of the smart-router package core against its natural-language
specification.  The TypeScript sources are shallowly embedded: JS `Map`s
become association lists (preserving insertion order, as JS Maps do),
`Date.now()` becomes an explicit `now : Int` parameter, fallible external
calls become `Except` values, and `null` vs `undefined` is kept explicit
where the source distinguishes them.
-/

namespace SmartRouter

/-! ## Generic association-list operations (JS `Map` semantics) -/

/-- Lookup in an association list (JS `Map.get`): first binding wins. -/
def alookup {β : Type} (l : List (String × β)) (k : String) : Option β :=
  match l with
  | [] => none
  | p :: t => if p.1 = k then some p.2 else alookup t k

/-- Key-membership test (JS `Map.has`). -/
def acontains {β : Type} (l : List (String × β)) (k : String) : Bool :=
  (alookup l k).isSome

/-- JS `Map.set`: update the existing binding in place (keeping its
position), or append a new binding at the end. -/
def aset {β : Type} (l : List (String × β)) (k : String) (v : β) : List (String × β) :=
  if acontains l k then l.map (fun p => if p.1 = k then (k, v) else p)
  else l ++ [(k, v)]

/-- Apply `f` to the value bound to `k`, if present. -/
def amodify {β : Type} (l : List (String × β)) (k : String) (f : β → β) : List (String × β) :=
  l.map (fun p => if p.1 = k then (p.1, f p.2) else p)

/-! ## Character-list string helpers (for JS `includes`, `toLowerCase`, regex pieces) -/

/-- Substring test on character lists, as JS `String.prototype.includes`. -/
def listContains (hay pat : List Char) : Bool :=
  if pat.isPrefixOf hay then true
  else
    match hay with
    | [] => false
    | _ :: t => listContains t pat

/-- JS `hay.includes(pat)`. -/
def strContains (hay pat : String) : Bool :=
  listContains hay.toList pat.toList

/-- Character-wise lower-casing, as JS `toLowerCase` on ASCII text. -/
def lowerList (l : List Char) : List Char :=
  l.map Char.toLower

/-- ASCII whitespace, standing for the regex class `\s`. -/
def isWsChar (c : Char) : Bool :=
  c = ' ' || c = '\t' || c = '\n' || c = '\r'

/-- Split a character list at every occurrence of `sep` (JS `split`). -/
def splitOnChar (sep : Char) (l : List Char) : List (List Char) :=
  l.foldr
    (fun c acc =>
      if c = sep then [] :: acc
      else
        match acc with
        | [] => [[c]]
        | h :: t => (c :: h) :: t)
    [[]]

/-- Strip leading and trailing whitespace (JS `trim`). -/
def trimChars (l : List Char) : List Char :=
  ((l.dropWhile isWsChar).reverse.dropWhile isWsChar).reverse

/-- Numeric value of a digit run (JS `parseInt` on a digit string). -/
def natFromDigits (l : List Char) : Nat :=
  l.foldl (fun n c => n * 10 + (c.toNat - '0'.toNat)) 0

/-- JS `Array.prototype.slice(s, e)` semantics, including negative ends. -/
def jsSlice {α : Type} (l : List α) (s e : Int) : List α :=
  let n : Int := l.length
  let normalize : Int → Nat := fun i => (if i < 0 then max (n + i) 0 else min i n).toNat
  (l.take (normalize e)).drop (normalize s)

/-! ## Circuit breaker and execution loop
(`src/services/ChatService.ts`, class `ChatService`) -/

namespace ChatServiceA

/-- The `disabledReason` values `'TEMPORARY' | 'PERMANENT'`; `Option` holds `null`. -/
inductive DisableReason : Type
  | TEMPORARY
  | PERMANENT
deriving DecidableEq

/-- Per-model health record kept in the `modelHealth` map. -/
structure ModelHealth where
  failures : Nat
  lastFailure : Int
  disabledUntil : Option Int
  disabledReason : Option DisableReason
deriving DecidableEq

/-- The `modelHealth` map: model key `provider:name` → health. -/
abbrev HealthMap : Type := List (String × ModelHealth)

/-- An error object reaching `classifyError`: possible `status` /
`statusCode` numeric fields and a `message` string. -/
structure ErrObj where
  status : Option Int
  statusCode : Option Int
  message : String
deriving DecidableEq

/-- The classification outcome of `classifyError`. -/
inductive ErrType : Type
  | TEMPORARY
  | PERMANENT
deriving DecidableEq

/-- JS `error?.status || error?.statusCode`: `status` is used when present
and non-zero (truthy), otherwise `statusCode`. -/
def effStatus (e : ErrObj) : Option Int :=
  match e.status with
  | some s => if s = 0 then e.statusCode else some s
  | none => e.statusCode

/-- The status test of `classifyError`: `statusCode >= 400 && statusCode
<= 403` (false when the status is absent, as JS comparisons with
`undefined` are). -/
def statusPermanentB (e : ErrObj) : Bool :=
  match effStatus e with
  | some s => decide (400 ≤ s ∧ s ≤ 403)
  | none => false

/-- The message-pattern test of `classifyError` on the lower-cased error
message. -/
def permanentMsg (e : ErrObj) : Bool :=
  let errorMessage := lowerList e.message.toList
  listContains errorMessage "permission_denied".toList
    || listContains errorMessage "access_denied".toList
    || listContains errorMessage "insufficient_quota".toList
    || listContains errorMessage "authentication_error".toList
    || listContains errorMessage "auth_error".toList
    || listContains errorMessage "model_not_found".toList
    || listContains errorMessage "billing_required".toList

/-- `classifyError` of `ChatService`: 400–403 statuses and a fixed set of
message patterns are permanent; everything else is temporary. -/
def classifyError (e : ErrObj) : ErrType :=
  if statusPermanentB e then .PERMANENT
  else if permanentMsg e then .PERMANENT
  else .TEMPORARY

/-- The in-place mutation of a health record performed by
`recordModelFailure` once the current health has been fetched. -/
def failureUpdate (cur : ModelHealth) (e : ErrObj) (now : Int) : ModelHealth :=
  let cur := { cur with failures := cur.failures + 1, lastFailure := now }
  match classifyError e with
  | .PERMANENT => { cur with disabledReason := some .PERMANENT }
  | .TEMPORARY =>
      if cur.failures ≥ 3 then
        { cur with disabledReason := some .TEMPORARY
                 , disabledUntil := some (now + 15 * 60 * 1000) }
      else cur

/-- `recordModelFailure`: fetch (or default) the health entry, increment
failures, stamp the time, classify and possibly disable. -/
def recordModelFailure (health : HealthMap) (modelKey : String) (e : ErrObj) (now : Int) :
    HealthMap :=
  let currentHealth := (alookup health modelKey).getD
    { failures := 0, lastFailure := now, disabledUntil := none, disabledReason := none }
  aset health modelKey (failureUpdate currentHealth e now)

/-- `resetModelFailures`: on an existing entry, zero the counter, stamp the
time, clear the reason and delete `disabledUntil`; no-op otherwise. -/
def resetModelFailures (health : HealthMap) (modelKey : String) (now : Int) : HealthMap :=
  match alookup health modelKey with
  | none => health
  | some cur =>
      aset health modelKey
        { cur with failures := 0, lastFailure := now
                 , disabledReason := none, disabledUntil := none }

/-- `isModelDisabled`: permanent reason, or temporary with a truthy
`disabledUntil` still in the future. -/
def isModelDisabled (health : HealthMap) (modelKey : String) (now : Int) : Bool :=
  match alookup health modelKey with
  | none => false
  | some cur =>
      if cur.disabledReason = some .PERMANENT then true
      else if cur.disabledReason = some .TEMPORARY then
        match cur.disabledUntil with
        | some du => if du = 0 then false else decide (now < du)
        | none => false
      else false

/-- The observable health of a model key: `(failures, disabledReason,
disabledUntil)`, with the absent-entry default. -/
def effHealth (health : HealthMap) (modelKey : String) :
    Nat × Option DisableReason × Option Int :=
  match alookup health modelKey with
  | none => (0, none, none)
  | some cur => (cur.failures, cur.disabledReason, cur.disabledUntil)

instance {ε α : Type} [DecidableEq ε] [DecidableEq α] : DecidableEq (Except ε α)
  | .ok a, .ok b =>
      if h : a = b then .isTrue (by rw [h]) else .isFalse (by simp [h])
  | .ok _, .error _ => .isFalse (by simp)
  | .error _, .ok _ => .isFalse (by simp)
  | .error e, .error f =>
      if h : e = f then .isTrue (by rw [h]) else .isFalse (by simp [h])

/-- A candidate reaching `executeModelsInOrder`: its `provider:name` key,
whether it is a media model, and the outcome its provider adapter would
produce (`executeLLMModel` either returns a success payload or throws). -/
structure MEntry where
  key : String
  isMedia : Bool
  outcome : Except ErrObj String
deriving DecidableEq

/-- The `ChatResponse` shape `{success, data, reasoning?}`. -/
structure ChatResponse where
  success : Bool
  data : String
  reasoning : Option String
deriving DecidableEq

/-- Result of the execution loop: the response, the final health map, the
keys whose provider adapter was actually invoked, and the model that
succeeded (if any). -/
structure LoopOut where
  response : ChatResponse
  health : HealthMap
  attempted : List String
  succeeded : Option String
deriving DecidableEq

/-- `executeModelsInOrder`: try candidates in order; media models are
skipped with a log only; a success resets the model's failures and returns;
a thrown error is recorded (the subsequent `isModelDisabled` test only
logs — both branches proceed to the next candidate). -/
def execLoop (health : HealthMap) (now : Int) : List MEntry → LoopOut
  | [] =>
      { response := { success := false
                    , data := "All available models failed to execute the request"
                    , reasoning := some "Circuit breaker: All models exhausted" }
      , health := health, attempted := [], succeeded := none }
  | e :: rest =>
      if e.isMedia then execLoop health now rest
      else
        match e.outcome with
        | .ok d =>
            { response := { success := true, data := d
                          , reasoning := some ("Executed by " ++ e.key) }
            , health := resetModelFailures health e.key now
            , attempted := [e.key], succeeded := some e.key }
        | .error err =>
            let h2 := recordModelFailure health e.key err now
            let r := execLoop h2 now rest
            { r with attempted := e.key :: r.attempted }

/-! ### Request analysis (`analyzeRequest` / `fallbackAnalysis`) -/

/-- The `AnalysisResult` interface. -/
structure AnalysisResult where
  relevantMetrics : List String
  priorityMetrics : List String
  detailedReasoning : Option String
deriving DecidableEq

/-- The fixed `EVALUATION_METRICS` vocabulary. -/
def EVALUATION_METRICS : List String :=
  [ "artificial_analysis_intelligence_index"
  , "artificial_analysis_coding_index"
  , "artificial_analysis_math_index"
  , "mmlu_pro_index"
  , "physics_knowledge_index"
  , "human_level_evaluation_index"
  , "live_code_benchmark_index"
  , "science_code_benchmark_index"
  , "math_benchmark_index"
  , "aime_index"
  , "aime_25_index"
  , "image_benchmark_index" ]

/-- `fallbackAnalysis`: deterministic keyword scan of the lower-cased
request text, starting from the intelligence-index default and appending
coding / math / science / image metrics per keyword family. -/
def fallbackAnalysis (userRequest : String) : AnalysisResult :=
  let requestLower := lowerList userRequest.toList
  let kw : String → Bool := fun pat => listContains requestLower pat.toList
  let relevantMetrics : List String := ["artificial_analysis_intelligence_index"]
  let relevantMetrics :=
    if kw "code" || kw "programming" || kw "coding" then
      relevantMetrics ++ ["artificial_analysis_coding_index", "live_code_benchmark_index"]
    else relevantMetrics
  let relevantMetrics :=
    if kw "math" || kw "calculation" || kw "equation" then
      relevantMetrics ++ ["artificial_analysis_math_index", "math_benchmark_index", "aime_index"]
    else relevantMetrics
  let relevantMetrics :=
    if kw "science" || kw "physics" || kw "chemistry" then
      relevantMetrics ++ ["physics_knowledge_index", "science_code_benchmark_index"]
    else relevantMetrics
  let relevantMetrics :=
    if kw "image" || kw "vision" || kw "picture" then
      relevantMetrics ++ ["image_benchmark_index"]
    else relevantMetrics
  { relevantMetrics := relevantMetrics
  , priorityMetrics := relevantMetrics.take 2
  , detailedReasoning := none }

/-- `analyzeRequest`: the delegated classification (provider call plus
`parseAnalysisResponse`) is a fallible external step, embedded as an
`Except` value; any error is recovered by `fallbackAnalysis`. -/
def analyzeRequest (primary : Except String AnalysisResult) (userRequest : String) :
    AnalysisResult :=
  match primary with
  | .ok r => r
  | .error _ => fallbackAnalysis userRequest

/-! ### LLM ranking of candidates (`rankModelsWithLLM` /
`parseModelRankingResponse`): the response is scanned with the regex
`\d+(?:\s*,\s*\d+)*` for 1-based candidate indices. -/

/-- Greedy matcher for the `(?:\s*,\s*\d+)*` tail of the ranking regex:
returns the consumed characters and the remaining input.  `fuel` bounds the
recursion; it is always called with the input length, which suffices since
every round consumes at least the comma. -/
def matchNumTail (fuel : Nat) (rest : List Char) : List Char × List Char :=
  match fuel with
  | 0 => ([], rest)
  | fuel + 1 =>
      let (ws1, r1) := rest.span isWsChar
      match r1 with
      | ',' :: r2 =>
          let (ws2, r3) := r2.span isWsChar
          let (d2, r4) := r3.span Char.isDigit
          if d2.isEmpty then ([], rest)
          else
            let (more, rem) := matchNumTail fuel r4
            (ws1 ++ [','] ++ ws2 ++ d2 ++ more, rem)
      | _ => ([], rest)

/-- First match of `\d+(?:\s*,\s*\d+)*` in the response, if any. -/
def findNumberMatch : List Char → Option (List Char)
  | [] => none
  | c :: cs =>
      if c.isDigit then
        let (d, rest) := (c :: cs).span Char.isDigit
        some (d ++ (matchNumTail rest.length rest).1)
      else findNumberMatch cs

/-- `parseModelRankingResponse`: extract 1-based indices from the matched
number list, keep the valid ones, dedupe while building the ranked list,
then append the unranked remainder in original order.  Any parse failure
(no number match, or no valid index) returns the original list. -/
def parseModelRankingResponse {α : Type} (response : String) (originalModels : List α) :
    List α :=
  match findNumberMatch response.toList with
  | none => originalModels
  | some matched =>
      let rankedIndices : List Int :=
        (splitOnChar ',' matched).map (fun s => (natFromDigits (trimChars s) : Int) - 1)
      let validIndices :=
        rankedIndices.filter
          (fun i => decide (0 ≤ i) && decide (i < (originalModels.length : Int)))
      if validIndices.isEmpty then originalModels
      else
        let build :=
          validIndices.foldl
            (fun (acc : List α × List Int) i =>
              if acc.2.contains i then acc
              else
                match originalModels.get? i.toNat with
                | some m => (acc.1 ++ [m], acc.2 ++ [i])
                | none => acc)
            ([], [])
        let remainder :=
          (List.range originalModels.length).filterMap
            (fun j =>
              if build.2.contains (Int.ofNat j) then none
              else originalModels.get? j)
        build.1 ++ remainder

/-- `rankModelsWithLLM`: the delegated ranking call is an `Except` value;
any failure (including an unsuccessful provider response) falls back to the
original order. -/
def rankModelsWithLLM {α : Type} (callOutcome : Except String String) (models : List α) :
    List α :=
  match callOutcome with
  | .error _ => models
  | .ok response => parseModelRankingResponse response models

/-- `execute` composed from its phases: `analyzeRequest` (never fails),
`getFilteredModels` (catches internally and returns a list), ranking and
the circuit-breaker loop.  The embedding is a total function: the
top-level `try/catch` of `execute` has no remaining throwing path. -/
def chatExecute (primary : Except String AnalysisResult) (userRequest : String)
    (filteredModels : List MEntry) (rankOutcome : Except String String)
    (health : HealthMap) (now : Int) : ChatResponse × HealthMap :=
  let _analysis := analyzeRequest primary userRequest
  let rankedModels := rankModelsWithLLM rankOutcome filteredModels
  let out := execLoop health now rankedModels
  (out.response, out.health)

end ChatServiceA

/-! ## Selection engine of the second `ChatService` variant
(the class embedded in `src/providers/openai.ts`): strategy-based
selection, the balanced score/price fallback, and provider rotation. -/

namespace ChatServiceB

/-- The fields of a candidate model that the selection engine reads:
identity, `price`, and the `evaluations` map.  Scores and prices are
rationals. -/
structure BModel where
  provider_name : String
  name : String
  price : ℚ
  evaluations : List (String × ℚ)
deriving DecidableEq

/-- The per-model mean of the evaluation scores restricted to
`relevantMetrics` (a missing metric counts as 0), as computed inside
`selectBalancedModels` / `selectMostAccurateModels`. -/
def relevantScore (relevantMetrics : List String) (m : BModel) : ℚ :=
  (relevantMetrics.foldl (fun sum metric => sum + ((alookup m.evaluations metric).getD 0)) 0)
    / (relevantMetrics.length : ℚ)

/-- The `valueScore` of `selectBalancedModels`: relevant score over price. -/
def valueScore (relevantMetrics : List String) (m : BModel) : ℚ :=
  relevantScore relevantMetrics m / m.price

/-- Stable descending insertion by a rational key (ties keep their
original relative order, as JS `Array.prototype.sort` is stable). -/
def insertDescBy {α : Type} (key : α → ℚ) (x : α) : List α → List α
  | [] => [x]
  | y :: ys => if key y < key x then x :: y :: ys else y :: insertDescBy key x ys

/-- Stable descending sort by a rational key. -/
def sortDescBy {α : Type} (key : α → ℚ) (l : List α) : List α :=
  l.foldl (fun acc x => insertDescBy key x acc) []

/-- Stable ascending insertion by a natural key. -/
def insertAscBy {α : Type} (key : α → Nat) (x : α) : List α → List α
  | [] => [x]
  | y :: ys => if key x < key y then x :: y :: ys else y :: insertAscBy key x ys

/-- Stable ascending sort by a natural key. -/
def sortAscBy {α : Type} (key : α → Nat) (l : List α) : List α :=
  l.foldl (fun acc x => insertAscBy key x acc) []

/-- `selectBalancedModels`: keep models with `price > 0`, attach each
model's `valueScore`, sort by it descending, take the top 5 and strip the
scores again. -/
def selectBalancedModels (models : List BModel) (relevantMetrics : List String) :
    List BModel :=
  ((sortDescBy (fun p => p.2)
      ((models.filter (fun m => decide (0 < m.price))).map
        (fun m => (m, valueScore relevantMetrics m)))).take 5).map
    (fun p => p.1)

/-- What `JSON.parse` can make of the delegated ranking response, as far as
`parseModelRankingResponse` inspects it: a thrown parse error, a non-array
value, or an array of `provider:model` name strings. -/
inductive ParsedRanking : Type
  | parseError
  | notArray
  | arr (names : List String)
deriving DecidableEq

/-- `parseModelRankingResponse` of the `openai.ts` variant: map each
`provider:model` name back to a registry entry, fill up with the remaining
models to 5, truncate to 5; on a parse failure fall back to
`selectBalancedModels`. -/
def parseRankingB (response : ParsedRanking) (models : List BModel)
    (relevantMetrics : List String) : List BModel :=
  match response with
  | .parseError => selectBalancedModels models relevantMetrics
  | .notArray => selectBalancedModels models relevantMetrics
  | .arr rankedModelNames =>
      let rankedModels :=
        rankedModelNames.foldl
          (fun (acc : List BModel) modelName =>
            let parts := (splitOnChar ':' modelName.toList).map List.asString
            let provider := parts.headD ""
            let model := parts.get? 1
            match models.find? (fun m => m.provider_name = provider ∧ some m.name = model) with
            | some foundModel => acc ++ [foundModel]
            | none => acc)
          []
      let remainingModels := models.filter (fun m => !rankedModels.contains m)
      (rankedModels ++ jsSlice remainingModels 0 (5 - (rankedModels.length : Int))).take 5

/-- `selectBalancedModelsWithLLM`: every pre-call failure (missing or
invalid analysis provider, unsuccessful or empty response) and every
thrown error fall back to `selectBalancedModels`; a received response goes
through `parseRankingB`. -/
def selectBalancedModelsWithLLM (delegated : Except String ParsedRanking)
    (models : List BModel) (relevantMetrics : List String) : List BModel :=
  match delegated with
  | .error _ => selectBalancedModels models relevantMetrics
  | .ok response => parseRankingB response models relevantMetrics

/-- The failure cases of the delegated balanced-ranking step: the call
itself failed (or was never possible), or its response failed to parse as
a JSON array. -/
def delegatedRankingFailed (delegated : Except String ParsedRanking) : Prop :=
  match delegated with
  | .error _ => True
  | .ok .parseError => True
  | .ok .notArray => True
  | .ok (.arr _) => False

/-! ### Provider rotation (`applyProviderRotation`) -/

/-- Group models by `provider_name`, providers in first-occurrence order,
models kept in list order (JS `Map` insertion-order iteration). -/
def groupByProvider (models : List BModel) : List (String × List BModel) :=
  models.foldl
    (fun groups m =>
      if acontains groups m.provider_name then
        amodify groups m.provider_name (fun l => l ++ [m])
      else groups ++ [(m.provider_name, [m])])
    []

/-- Provider-level `last_used` for rotation: the LLM provider's timestamp
if present and non-null, else the media provider's, else 0 (the epoch). -/
def providerLastUsed (llmProviders mediaProviders : List (String × Option Nat))
    (providerName : String) : Nat :=
  match alookup llmProviders providerName with
  | some (some t) => t
  | _ =>
      match alookup mediaProviders providerName with
      | some (some t) => t
      | _ => 0

/-- `applyProviderRotation`: group by provider, sort providers by
ascending `last_used`, emit one model per provider per round, truncate to
10. -/
def applyProviderRotation (llmProviders mediaProviders : List (String × Option Nat))
    (models : List BModel) : List BModel :=
  let providersWithUsage :=
    (groupByProvider models).map
      (fun g => (g.1, g.2, providerLastUsed llmProviders mediaProviders g.1))
  let sorted := sortAscBy (fun t => t.2.2) providersWithUsage
  let maxModelsPerProvider := (sorted.map (fun t => t.2.1.length)).foldr max 0
  (((List.range maxModelsPerProvider).map
      (fun i => sorted.filterMap (fun t => t.2.1.get? i))).flatten).take 10

end ChatServiceB

/-! ## Configuration service (`src/services/ConfigurationService.ts`) -/

namespace ConfigService

/-- The `ModelSelectionSettings` record. -/
structure ModelSelectionSettings where
  cheapest : Bool
  accurate : Bool
  middle : Bool
  rotating : Bool
deriving DecidableEq

/-- A `Partial<ModelSelectionSettings>` argument: absent keys are `none`. -/
structure PartialSettings where
  cheapest : Option Bool
  accurate : Option Bool
  middle : Option Bool
  rotating : Option Bool
deriving DecidableEq

/-- `setModelSelection`: throws when the incoming partial settings set both
`cheapest` and `accurate` to `true`; auto-enables `middle` when the partial
settings set both to `false`; then merge over the current settings. -/
def setModelSelection (cur : ModelSelectionSettings) (s : PartialSettings) :
    Except String ModelSelectionSettings :=
  if s.cheapest = some true ∧ s.accurate = some true then
    .error "Cannot set both cheapest and accurate to true. Only one can be enabled."
  else
    let s := if s.cheapest = some false ∧ s.accurate = some false then
               { s with middle := some true }
             else s
    .ok { cheapest := s.cheapest.getD cur.cheapest
        , accurate := s.accurate.getD cur.accurate
        , middle := s.middle.getD cur.middle
        , rotating := s.rotating.getD cur.rotating }

/-- The constructor's initial defaults: `middle` and `rotating`. -/
def defaultSelection : ModelSelectionSettings :=
  { cheapest := false, accurate := false, middle := true, rotating := true }

/-- The `ConfigurationService` constructor applies the user's partial
configuration to the defaults through `setModelSelection`. -/
def mkConfigService (userConfig : PartialSettings) : Except String ModelSelectionSettings :=
  setModelSelection defaultSelection userConfig

/-- `setCheapest`. -/
def setCheapest (cur : ModelSelectionSettings) (enabled : Bool) :
    Except String ModelSelectionSettings :=
  setModelSelection cur { cheapest := some enabled, accurate := none, middle := none, rotating := none }

/-- `setAccurate`. -/
def setAccurate (cur : ModelSelectionSettings) (enabled : Bool) :
    Except String ModelSelectionSettings :=
  setModelSelection cur { cheapest := none, accurate := some enabled, middle := none, rotating := none }

/-- `setMiddle`. -/
def setMiddle (cur : ModelSelectionSettings) (enabled : Bool) :
    Except String ModelSelectionSettings :=
  setModelSelection cur { cheapest := none, accurate := none, middle := some enabled, rotating := none }

/-- `setRotating`: direct field write, no validation. -/
def setRotating (cur : ModelSelectionSettings) (enabled : Bool) : ModelSelectionSettings :=
  { cur with rotating := enabled }

/-- `getSelectionStrategy`: `cheapest` wins, then `accurate`, else `middle`. -/
def getSelectionStrategy (cur : ModelSelectionSettings) : String :=
  if cur.cheapest then "cheapest" else if cur.accurate then "accurate" else "middle"

/-- The selection-settings states reachable through the constructor and the
public setters (`setCheapest` / `setAccurate` / `setMiddle` are instances of
`setModelSelection`; `setRotating` writes directly). -/
inductive ReachableSelection : ModelSelectionSettings → Prop
  | init (userConfig : PartialSettings) (s : ModelSelectionSettings) :
      mkConfigService userConfig = .ok s → ReachableSelection s
  | update (s : ModelSelectionSettings) (p : PartialSettings) (s' : ModelSelectionSettings) :
      ReachableSelection s → setModelSelection s p = .ok s' → ReachableSelection s'
  | rotate (s : ModelSelectionSettings) (b : Bool) :
      ReachableSelection s → ReachableSelection (setRotating s b)

end ConfigService

/-! ## Data management service (`DataManagementService`): registry refresh
(`populateLLMData` = `extractLLMData` then `removeUnusedStaleLLMModels`). -/

namespace DataService

/-- A JS `Date | null` field that may also be left `undefined` (the
`DataManagementService.ensureLLMModel` object literal omits `last_used`
entirely, so the field reads as `undefined`, not `null`). -/
inductive LastUsed : Type
  | undef
  | null
  | time (t : Nat)
deriving DecidableEq

/-- The model-level disable reasons (same shape as in the chat service). -/
inductive DisableReason : Type
  | TEMPORARY
  | PERMANENT
deriving DecidableEq

/-- An LLM model record as created and updated by `DataManagementService`. -/
structure LLMModelRec where
  name : String
  provider_name : String
  evaluations : List (String × Int)
  price : Int
  latency : Int
  last_used : LastUsed
  price_per_1M_input_tokens : Int
  price_per_1M_output_tokens : Int
  median_output_tokens_per_second : Int
  median_time_to_first_token : Int
  failures : Nat
  lastFailure : Int
  disabledUntil : Option Int
  disabledReason : Option DisableReason
deriving DecidableEq

/-- A provider record: credentials flag, model map, provider `last_used`
(initialised to `null` by `ensureLLMProvider`). -/
structure LLMProviderRec where
  has_api_key : Bool
  models : List (String × LLMModelRec)
  last_used : LastUsed
deriving DecidableEq

/-- The `llmProviders` map. -/
abbrev Registry : Type := List (String × LLMProviderRec)

/-- One item of the benchmark snapshot, with the fields `extractLLMData`
reads.  Each entry of `evaluations` is one evaluation object, listing only
the metrics it carries a non-null value for. -/
structure SnapItem where
  name : String
  creator_name : String
  price_per_1M_input_tokens : Int
  price_per_1M_output_tokens : Int
  median_output_tokens_per_second : Int
  median_time_to_first_token : Int
  evaluations : List (List (String × Int))
deriving DecidableEq

/-- The fixed metric list iterated inside `extractLLMData`. -/
def extractionMetrics : List String :=
  [ "artificial_analysis_intelligence_index"
  , "artificial_analysis_coding_index"
  , "artificial_analysis_math_index"
  , "mmlu_pro_index"
  , "physics_knowledge_index"
  , "human_level_evaluation_index"
  , "live_code_benchmark_index"
  , "science_code_benchmark_index"
  , "math_benchmark_index"
  , "aime_index"
  , "aime_25_index"
  , "image_benchmark_index" ]

/-- The `${provider}:${name}` key string. -/
def modelKeyStr (provider name : String) : String :=
  provider ++ ":" ++ name

/-- The sequence of `evaluations.set(metric, value)` writes an item
produces: for each evaluation object in order, each metric of the fixed
list that is present. -/
def metricWrites (item : SnapItem) : List (String × Int) :=
  (item.evaluations.map
    (fun ev => extractionMetrics.filterMap
      (fun metric => (alookup ev metric).map (fun v => (metric, v))))).flatten

/-- Replay a list of `Map.set` writes onto an evaluations map. -/
def applyWrites (writes : List (String × Int)) (evs : List (String × Int)) :
    List (String × Int) :=
  writes.foldl (fun acc kv => aset acc kv.1 kv.2) evs

/-- The per-record mutation `extractLLMData` performs on an (ensured)
model record: overwrite the benchmark-derived fields and replay the
evaluation writes; `last_used` and the health fields are not touched. -/
def updRecord (item : SnapItem) (m : LLMModelRec) : LLMModelRec :=
  { m with
    price_per_1M_input_tokens := item.price_per_1M_input_tokens
  , price_per_1M_output_tokens := item.price_per_1M_output_tokens
  , median_output_tokens_per_second := item.median_output_tokens_per_second
  , median_time_to_first_token := item.median_time_to_first_token
  , price := item.price_per_1M_input_tokens
  , latency := item.median_time_to_first_token
  , evaluations := applyWrites (metricWrites item) m.evaluations }

/-- The object literal of `DataManagementService.ensureLLMModel`.  Note:
unlike the other copies of this helper in the repository, it does not
initialise `last_used`, so the field is `undefined`. -/
def newLLMModel (providerName modelName : String) : LLMModelRec :=
  { name := modelName
  , provider_name := providerName
  , evaluations := []
  , price := 0
  , latency := 0
  , last_used := .undef
  , price_per_1M_input_tokens := 0
  , price_per_1M_output_tokens := 0
  , median_output_tokens_per_second := 0
  , median_time_to_first_token := 0
  , failures := 0
  , lastFailure := 0
  , disabledUntil := none
  , disabledReason := none }

/-- `ensureLLMProvider`: create the provider entry if missing. -/
def ensureLLMProviderReg (reg : Registry) (providerName : String) : Registry :=
  if acontains reg providerName then reg
  else reg ++ [(providerName, { has_api_key := false, models := [], last_used := .null })]

/-- The per-provider step of `ensureLLMModel`: create the model entry if
missing. -/
def ensureModelFn (providerName modelName : String) (prov : LLMProviderRec) :
    LLMProviderRec :=
  if acontains prov.models modelName then prov
  else { prov with models := prov.models ++ [(modelName, newLLMModel providerName modelName)] }

/-- `ensureLLMModel` at registry level: ensure the provider, then create
the model entry if missing. -/
def ensureLLMModelReg (reg : Registry) (providerName modelName : String) : Registry :=
  amodify (ensureLLMProviderReg reg providerName) providerName
    (ensureModelFn providerName modelName)

/-- The per-provider step of the record mutation: update one model record. -/
def modelUpdFn (i : SnapItem) (prov : LLMProviderRec) : LLMProviderRec :=
  { prov with models := amodify prov.models i.name (updRecord i) }

/-- The composite per-provider transformation one snapshot item performs. -/
def updProvFn (i : SnapItem) (prov : LLMProviderRec) : LLMProviderRec :=
  modelUpdFn i (ensureModelFn i.creator_name i.name prov)

/-- Apply `f` to one model record of the registry. -/
def modifyModel (reg : Registry) (providerName modelName : String)
    (f : LLMModelRec → LLMModelRec) : Registry :=
  amodify reg providerName (fun prov => { prov with models := amodify prov.models modelName f })

/-- Processing of a single snapshot item inside `extractLLMData`. -/
def updItem (reg : Registry) (item : SnapItem) : Registry :=
  modifyModel (ensureLLMModelReg reg item.creator_name item.name)
    item.creator_name item.name (updRecord item)

/-- `extractLLMData`: process the snapshot items in order. -/
def extractLLMData (data : List SnapItem) (reg : Registry) : Registry :=
  data.foldl updItem reg

/-- The retention test of `removeUnusedStaleLLMModels` for one model entry:
an entry is dropped iff its key is absent from the snapshot and its
`last_used` is strictly `null` (`===`). -/
def keepModelEntry (apiModelKeys : List String) (providerName : String)
    (entry : String × LLMModelRec) : Bool :=
  !(!(apiModelKeys.contains (modelKeyStr providerName entry.1))
      && entry.2.last_used = LastUsed.null)

/-- The `apiModelKeys` set built at the top of `removeUnusedStaleLLMModels`. -/
def apiKeysOf (data : List SnapItem) : List String :=
  data.map (fun item => modelKeyStr item.creator_name item.name)

/-- Processing of one provider entry by `removeUnusedStaleLLMModels`:
filter its model map, and drop the provider when nothing is left. -/
def purgeEntry (apiModelKeys : List String) (pr : String × LLMProviderRec) :
    Option (String × LLMProviderRec) :=
  let models := pr.2.models.filter (keepModelEntry apiModelKeys pr.1)
  if models.isEmpty then none
  else some (pr.1, { pr.2 with models := models })

/-- `removeUnusedStaleLLMModels`: drop stale never-used (`=== null`)
models, then drop providers left with zero models. -/
def removeUnusedStaleLLMModels (data : List SnapItem) (reg : Registry) : Registry :=
  reg.filterMap (purgeEntry (apiKeysOf data))

/-- `populateLLMData`: extract the snapshot, then purge stale unused
models (the API call itself is the snapshot argument). -/
def populateLLMData (data : List SnapItem) (reg : Registry) : Registry :=
  removeUnusedStaleLLMModels data (extractLLMData data reg)

/-- Lookup of a model record in the registry. -/
def lookupModel (reg : Registry) (providerName modelName : String) : Option LLMModelRec :=
  (alookup reg providerName).bind (fun prov => alookup prov.models modelName)

/-- The usage/health projection of a model record: `last_used` plus the
four circuit-breaker fields. -/
def healthProj (m : LLMModelRec) :
    LastUsed × Nat × Int × Option Int × Option DisableReason :=
  (m.last_used, m.failures, m.lastFailure, m.disabledUntil, m.disabledReason)

/-- The `(provider, name)` key of a snapshot item. -/
def itemKey (item : SnapItem) : String × String :=
  (item.creator_name, item.name)

/-- The two-level key uniqueness a registry always has when built through
JS `Map`s: provider keys are unique, and model keys are unique within each
provider. -/
def WF2 (reg : Registry) : Prop :=
  (reg.map Prod.fst).Nodup ∧ ∀ pr ∈ reg, (pr.2.models.map Prod.fst).Nodup

instance : DecidablePred WF2 := fun reg => by
  unfold WF2; infer_instance

/-- Every binding of `k` in the association list carries the value `v`
(JS `Map`s have at most one, but the embedding keeps the general form). -/
def AllEq {β : Type} (l : List (String × β)) (k : String) (v : β) : Prop :=
  ∀ p ∈ l, p.1 = k → p.2 = v

/-- A snapshot item is fully absorbed by the registry: its provider
exists, every binding of that provider has the item's model, and every
binding of the model is a fixed point of the item's update. -/
def ItemSettled (reg : Registry) (i : SnapItem) : Prop :=
  (alookup reg i.creator_name).isSome ∧
  ∀ pr ∈ reg, pr.1 = i.creator_name →
    (alookup pr.2.models i.name).isSome ∧
    ∀ mr ∈ pr.2.models, mr.1 = i.name → updRecord i mr.2 = mr.2

/-- A concrete snapshot item used to exercise the refresh pipeline. -/
def sampleItem : SnapItem :=
  { name := "m1", creator_name := "P", price_per_1M_input_tokens := 3
  , price_per_1M_output_tokens := 4, median_output_tokens_per_second := 5
  , median_time_to_first_token := 6
  , evaluations := [[("artificial_analysis_intelligence_index", 50)]] }

/-- A concrete pre-existing model record with nontrivial usage and health
fields, used to exercise the refresh pipeline. -/
def sampleRec : LLMModelRec :=
  { name := "m1", provider_name := "P"
  , evaluations := [("aime_index", 7)], price := 9, latency := 9
  , last_used := .time 5, price_per_1M_input_tokens := 9
  , price_per_1M_output_tokens := 9, median_output_tokens_per_second := 9
  , median_time_to_first_token := 9, failures := 2, lastFailure := 77
  , disabledUntil := some 1, disabledReason := some .TEMPORARY }

/-- A concrete registry holding `sampleRec`, used to exercise the refresh
pipeline. -/
def sampleReg : Registry :=
  [("P", { has_api_key := true, models := [("m1", sampleRec)]
         , last_used := .null })]

end DataService

/-! # Theorems -/

section Theorems

/-! ## Association-list lemmas -/

theorem alookup_cons {β : Type} (p : String × β) (t : List (String × β)) (k : String) :
    alookup (p :: t) k = if p.1 = k then some p.2 else alookup t k := rfl

theorem alookup_append {β : Type} (l₁ l₂ : List (String × β)) (k : String) :
    alookup (l₁ ++ l₂) k =
      match alookup l₁ k with
      | some v => some v
      | none => alookup l₂ k := by
  induction l₁ with
  | nil => simp [alookup]
  | cons p t ih =>
    rw [List.cons_append, alookup_cons, alookup_cons]
    by_cases hp : p.1 = k
    · rw [if_pos hp, if_pos hp]
    · rw [if_neg hp, if_neg hp, ih]

theorem alookup_none_iff {β : Type} (l : List (String × β)) (k : String) :
    alookup l k = none ↔ k ∉ l.map Prod.fst := by
  induction l with
  | nil => simp [alookup]
  | cons p t ih =>
    rw [alookup_cons]
    by_cases hp : p.1 = k
    · subst hp
      simp
    · rw [if_neg hp]
      simp only [List.map_cons, List.mem_cons]
      rw [ih]
      constructor
      · rintro h (h1 | h2)
        · exact hp h1.symm
        · exact h h2
      · intro h
        exact fun h2 => h (Or.inr h2)

theorem alookup_isSome_of_eq {β : Type} {l : List (String × β)} {k : String} {v : β}
    (h : alookup l k = some v) : (alookup l k).isSome := by
  rw [h]; rfl

theorem setmap_lookup_self {β : Type} (l : List (String × β)) (k : String) (v : β)
    (h : (alookup l k).isSome) :
    alookup (l.map (fun p => if p.1 = k then (k, v) else p)) k = some v := by
  induction l with
  | nil => simp [alookup] at h
  | cons p t ih =>
    rw [alookup_cons] at h
    rw [List.map_cons]
    by_cases hp : p.1 = k
    · rw [if_pos hp, alookup_cons, if_pos rfl]
    · rw [if_neg hp] at h
      rw [if_neg hp, alookup_cons, if_neg hp]
      exact ih h

theorem setmap_lookup_other {β : Type} (l : List (String × β)) (k k' : String) (v : β)
    (hk : k' ≠ k) :
    alookup (l.map (fun p => if p.1 = k then (k, v) else p)) k' = alookup l k' := by
  induction l with
  | nil => rfl
  | cons p t ih =>
    rw [List.map_cons, alookup_cons, alookup_cons]
    by_cases hp : p.1 = k
    · rw [if_pos hp]
      have h1 : ((k, v) : String × β).1 ≠ k' := fun h => hk h.symm
      rw [if_neg h1]
      have h2 : p.1 ≠ k' := by rw [hp]; exact fun h => hk h.symm
      rw [if_neg h2, ih]
    · rw [if_neg hp]
      by_cases hp' : p.1 = k'
      · rw [if_pos hp', if_pos hp']
      · rw [if_neg hp', if_neg hp', ih]

theorem setmap_id_of_not_mem {β : Type} (l : List (String × β)) (k : String) (v : β)
    (h : k ∉ l.map Prod.fst) :
    l.map (fun p => if p.1 = k then (k, v) else p) = l := by
  induction l with
  | nil => rfl
  | cons p t ih =>
    simp only [List.map_cons, List.mem_cons] at h
    push_neg at h
    rw [List.map_cons, if_neg (fun hh => h.1 hh.symm), ih h.2]

theorem alookup_aset_self {β : Type} (l : List (String × β)) (k : String) (v : β) :
    alookup (aset l k v) k = some v := by
  unfold aset acontains
  cases hl : alookup l k with
  | some w =>
      rw [if_pos (show (some w).isSome = true from rfl)]
      exact setmap_lookup_self l k v (by rw [hl]; rfl)
  | none =>
      rw [if_neg (by simp), alookup_append, hl]
      simp [alookup]

theorem alookup_aset_other {β : Type} (l : List (String × β)) (k k' : String) (v : β)
    (hk : k' ≠ k) :
    alookup (aset l k v) k' = alookup l k' := by
  unfold aset acontains
  cases hl : alookup l k with
  | some w =>
      rw [if_pos (show (some w).isSome = true from rfl)]
      exact setmap_lookup_other l k k' v hk
  | none =>
      rw [if_neg (by simp), alookup_append]
      cases hl' : alookup l k' with
      | some w => rfl
      | none =>
          show alookup [(k, v)] k' = none
          rw [alookup_cons, if_neg (fun h => hk h.symm)]
          rfl

theorem aset_noop {β : Type} (l : List (String × β)) (k : String) (v : β)
    (hnd : (l.map Prod.fst).Nodup) (h : alookup l k = some v) :
    aset l k v = l := by
  unfold aset acontains
  rw [if_pos (alookup_isSome_of_eq h)]
  induction l with
  | nil => rfl
  | cons p t ih =>
    simp only [List.map_cons, List.nodup_cons] at hnd
    rw [alookup_cons] at h
    rw [List.map_cons]
    by_cases hp : p.1 = k
    · rw [if_pos hp] at h
      have hv := Option.some.inj h
      rw [if_pos hp]
      have hkv : ((k, v) : String × β) = p := by
        obtain ⟨p1, p2⟩ := p
        simp only at hp hv
        rw [hp, hv]
      rw [setmap_id_of_not_mem t k v (hp ▸ hnd.1), hkv]
    · rw [if_neg hp] at h
      rw [if_neg hp, ih hnd.2 h]

theorem aset_keys_of_isSome {β : Type} (l : List (String × β)) (k : String) (v : β)
    (h : (alookup l k).isSome) :
    (aset l k v).map Prod.fst = l.map Prod.fst := by
  unfold aset acontains
  rw [if_pos h, List.map_map]
  apply List.map_congr_left
  intro p _
  by_cases hp : p.1 = k
  · simp [hp]
  · simp [hp]

theorem aset_keys_nodup {β : Type} (l : List (String × β)) (k : String) (v : β)
    (hnd : (l.map Prod.fst).Nodup) :
    ((aset l k v).map Prod.fst).Nodup := by
  unfold aset acontains
  cases hl : alookup l k with
  | some w =>
      rw [if_pos (show (some w).isSome = true from rfl)]
      have h1 : (aset l k v).map Prod.fst = l.map Prod.fst :=
        aset_keys_of_isSome l k v (by rw [hl]; rfl)
      unfold aset acontains at h1
      rw [hl, if_pos (show (some w).isSome = true from rfl)] at h1
      rw [h1]
      exact hnd
  | none =>
      rw [if_neg (by simp), List.map_append]
      have h1 : k ∉ l.map Prod.fst := (alookup_none_iff l k).mp hl
      simp [List.nodup_append, hnd, h1]

theorem amodify_cons {β : Type} (p : String × β) (t : List (String × β)) (k : String)
    (f : β → β) :
    amodify (p :: t) k f =
      (if p.1 = k then (p.1, f p.2) else p) :: amodify t k f := rfl

theorem amodify_lookup_self {β : Type} (l : List (String × β)) (k : String)
    (f : β → β) (v : β) (h : alookup l k = some v) :
    alookup (amodify l k f) k = some (f v) := by
  induction l with
  | nil => simp [alookup] at h
  | cons p t ih =>
    rw [alookup_cons] at h
    rw [amodify_cons]
    by_cases hp : p.1 = k
    · rw [if_pos hp] at h
      have hv := Option.some.inj h
      rw [if_pos hp, alookup_cons, if_pos hp, hv]
    · rw [if_neg hp] at h
      rw [if_neg hp, alookup_cons, if_neg hp]
      exact ih h

theorem amodify_lookup_other {β : Type} (l : List (String × β)) (k k' : String)
    (f : β → β) (hk : k' ≠ k) :
    alookup (amodify l k f) k' = alookup l k' := by
  induction l with
  | nil => rfl
  | cons p t ih =>
    rw [amodify_cons, alookup_cons, alookup_cons]
    by_cases hp : p.1 = k
    · rw [if_pos hp]
      by_cases hp' : p.1 = k'
      · exact absurd (hp'.symm.trans hp) hk
      · rw [if_neg hp', if_neg hp', ih]
    · rw [if_neg hp]
      by_cases hp' : p.1 = k'
      · rw [if_pos hp', if_pos hp']
      · rw [if_neg hp', if_neg hp', ih]

theorem amodify_of_none {β : Type} (l : List (String × β)) (k : String) (f : β → β)
    (h : alookup l k = none) : amodify l k f = l := by
  rw [alookup_none_iff] at h
  induction l with
  | nil => rfl
  | cons p t ih =>
    simp only [List.map_cons, List.mem_cons] at h
    push_neg at h
    rw [amodify_cons, if_neg (fun hh => h.1 hh.symm), ih h.2]

theorem amodify_noop {β : Type} (l : List (String × β)) (k : String) (f : β → β) (v : β)
    (hnd : (l.map Prod.fst).Nodup) (h : alookup l k = some v) (hf : f v = v) :
    amodify l k f = l := by
  induction l with
  | nil => rfl
  | cons p t ih =>
    simp only [List.map_cons, List.nodup_cons] at hnd
    rw [alookup_cons] at h
    rw [amodify_cons]
    by_cases hp : p.1 = k
    · rw [if_pos hp] at h
      have hv := Option.some.inj h
      rw [if_pos hp]
      have h1 : (p.1, f p.2) = p := by
        obtain ⟨p1, p2⟩ := p
        simp only at hv ⊢
        rw [hv, hf]
      rw [h1, amodify_of_none t k f ((alookup_none_iff t k).mpr (hp ▸ hnd.1))]
    · rw [if_neg hp] at h
      rw [if_neg hp, ih hnd.2 h]

theorem amodify_keys {β : Type} (l : List (String × β)) (k : String) (f : β → β) :
    (amodify l k f).map Prod.fst = l.map Prod.fst := by
  unfold amodify
  rw [List.map_map]
  apply List.map_congr_left
  intro p _
  by_cases hp : p.1 = k
  · simp [hp]
  · simp [hp]

/-! ## Circuit breaker: claims C1, C2, C3 -/

section CircuitBreaker

open ChatServiceA

theorem reset_effHealth (health : HealthMap) (k : String) (now : Int) :
    effHealth (resetModelFailures health k now) k = (0, none, none) := by
  cases hl : alookup health k with
  | none =>
      unfold resetModelFailures
      rw [hl]
      unfold effHealth
      rw [hl]
  | some cur =>
      unfold resetModelFailures
      rw [hl]
      unfold effHealth
      rw [alookup_aset_self]

/-- Claim C1 (code bug evidence): a model whose circuit-breaker entry is
`PERMANENT`-disabled at the moment the loop reaches it is nevertheless
attempted — `executeModelsInOrder` consults `isModelDisabled` only after a
failed attempt, never before invoking the provider adapter. -/
theorem C1_disabled_model_still_attempted :
    isModelDisabled
      [("p:m", { failures := 5, lastFailure := 0, disabledUntil := none
               , disabledReason := some .PERMANENT })] "p:m" 1000 = true ∧
    (execLoop
      [("p:m", { failures := 5, lastFailure := 0, disabledUntil := none
               , disabledReason := some .PERMANENT })] 1000
      [{ key := "p:m", isMedia := false
       , outcome := .error { status := none, statusCode := none, message := "boom" } }]).attempted
      = ["p:m"] := by
  decide

/-- Claim C3: whichever model the execution loop succeeds with has its
circuit-breaker health reset to zero failures, no disable reason and no
`disabled_until` in the final health map — also when it was previously
permanently disabled, since the reset is unconditional on the old state. -/
theorem C3_success_resets_health (health : HealthMap) (now : Int) (ms : List MEntry)
    (k : String) (h : (execLoop health now ms).succeeded = some k) :
    effHealth (execLoop health now ms).health k = (0, none, none) := by
  induction ms generalizing health with
  | nil => simp [execLoop] at h
  | cons e rest ih =>
    by_cases hm : e.isMedia
    · simp only [execLoop, if_pos hm] at h ⊢
      exact ih _ h
    · cases ho : e.outcome with
      | ok d =>
          simp only [execLoop, if_neg hm, ho] at h ⊢
          rw [← Option.some.inj h]
          exact reset_effHealth health e.key now
      | error err =>
          simp only [execLoop, if_neg hm, ho] at h ⊢
          exact ih _ h

theorem C3_success_resets_health_witness :
    (execLoop
        [("a:b", { failures := 9, lastFailure := 0, disabledUntil := none
                 , disabledReason := some .PERMANENT })] 7
        [{ key := "a:b", isMedia := false, outcome := .ok "fine" }]).succeeded
      = some "a:b" ∧
    effHealth
      (execLoop
        [("a:b", { failures := 9, lastFailure := 0, disabledUntil := none
                 , disabledReason := some .PERMANENT })] 7
        [{ key := "a:b", isMedia := false, outcome := .ok "fine" }]).health "a:b"
      = (0, none, none) :=
  ⟨by decide, C3_success_resets_health _ 7 _ "a:b" (by decide)⟩

/-- Claim C2: recording a failure increments the model's failure count and
stamps `last_failure_time = now`; an error classified permanent (status in
400–403 or one of the authorization/permission/quota/billing/model-
not-found message patterns) sets `disabled_reason = PERMANENT` regardless
of the count; otherwise a count reaching 3 sets `disabled_reason =
TEMPORARY` with `disabled_until = now + 15 minutes`, and below 3 the
disable fields are untouched. -/
theorem C2_failure_recording (health : HealthMap) (k : String) (e : ErrObj) (now : Int) :
    alookup (recordModelFailure health k e now) k =
      some (failureUpdate
        ((alookup health k).getD
          { failures := 0, lastFailure := now, disabledUntil := none, disabledReason := none })
        e now) ∧
    (∀ cur : ModelHealth,
      (failureUpdate cur e now).failures = cur.failures + 1 ∧
      (failureUpdate cur e now).lastFailure = now ∧
      (classifyError e = .PERMANENT →
        (failureUpdate cur e now).disabledReason = some .PERMANENT) ∧
      (classifyError e = .TEMPORARY → 3 ≤ cur.failures + 1 →
        (failureUpdate cur e now).disabledReason = some .TEMPORARY ∧
        (failureUpdate cur e now).disabledUntil = some (now + 15 * 60 * 1000)) ∧
      (classifyError e = .TEMPORARY → cur.failures + 1 < 3 →
        (failureUpdate cur e now).disabledReason = cur.disabledReason ∧
        (failureUpdate cur e now).disabledUntil = cur.disabledUntil)) ∧
    (classifyError e = .PERMANENT ↔
      (statusPermanentB e = true ∨ permanentMsg e = true)) := by
  refine ⟨?_, ?_, ?_⟩
  · unfold recordModelFailure
    exact alookup_aset_self _ _ _
  · intro cur
    cases hcl : classifyError e with
    | PERMANENT =>
        refine ⟨by simp [failureUpdate, hcl], by simp [failureUpdate, hcl],
                fun _ => by simp [failureUpdate, hcl], ?_, ?_⟩
        · intro hc
          exact absurd hc (by decide)
        · intro hc
          exact absurd hc (by decide)
    | TEMPORARY =>
        by_cases h3 : 3 ≤ cur.failures + 1
        · refine ⟨by simp [failureUpdate, hcl, h3], by simp [failureUpdate, hcl, h3], ?_, ?_, ?_⟩
          · intro hc
            exact absurd hc (by decide)
          · intro _ _
            exact ⟨by simp [failureUpdate, hcl, h3], by simp [failureUpdate, hcl, h3]⟩
          · intro _ hlt
            omega
        · refine ⟨by simp [failureUpdate, hcl, h3], by simp [failureUpdate, hcl, h3], ?_, ?_, ?_⟩
          · intro hc
            exact absurd hc (by decide)
          · intro _ h3'
            exact absurd h3' h3
          · intro _ _
            exact ⟨by simp [failureUpdate, hcl, h3], by simp [failureUpdate, hcl, h3]⟩
  · unfold classifyError
    by_cases h1 : statusPermanentB e <;> by_cases h2 : permanentMsg e <;>
      simp [h1, h2]

theorem C2_failure_recording_witness :
    classifyError { status := some 401, statusCode := none, message := "x" } = .PERMANENT ∧
    alookup
        (recordModelFailure [] "p:m"
          { status := some 401, statusCode := none, message := "x" } 0) "p:m" =
      some (failureUpdate
        { failures := 0, lastFailure := 0, disabledUntil := none, disabledReason := none }
        { status := some 401, statusCode := none, message := "x" } 0) ∧
    (failureUpdate
        { failures := 0, lastFailure := 0, disabledUntil := none, disabledReason := none }
        { status := some 401, statusCode := none, message := "x" } 0).disabledReason
      = some .PERMANENT :=
  ⟨by decide,
   (C2_failure_recording [] "p:m"
      { status := some 401, statusCode := none, message := "x" } 0).1,
   ((C2_failure_recording [] "p:m"
      { status := some 401, statusCode := none, message := "x" } 0).2.1
      { failures := 0, lastFailure := 0, disabledUntil := none, disabledReason := none }).2.2.1
      (by decide)⟩

end CircuitBreaker

/-! ## String lemmas for the keyword fallback -/

theorem isPrefixOf_map (f : Char → Char) (a b : List Char) (h : a.isPrefixOf b = true) :
    (a.map f).isPrefixOf (b.map f) = true := by
  rw [List.isPrefixOf_iff_prefix] at h ⊢
  exact h.map f

theorem listContains_map (f : Char → Char) (hay pat : List Char)
    (h : listContains hay pat = true) :
    listContains (hay.map f) (pat.map f) = true := by
  induction hay with
  | nil =>
      unfold listContains at h
      by_cases hpre : pat.isPrefixOf ([] : List Char) = true
      · have hp : pat = [] := by
          rw [List.isPrefixOf_iff_prefix] at hpre
          exact List.prefix_nil.mp hpre
        subst hp
        rfl
      · rw [if_neg hpre] at h
        exact absurd h (by simp)
  | cons c t ih =>
      unfold listContains at h
      by_cases hpre : pat.isPrefixOf (c :: t) = true
      · have := isPrefixOf_map f pat (c :: t) hpre
        unfold listContains
        rw [if_pos this]
      · rw [if_neg hpre] at h
        have ht : listContains (t.map f) (pat.map f) = true := ih h
        unfold listContains
        by_cases hp2 : (pat.map f).isPrefixOf ((c :: t).map f) = true
        · rw [if_pos hp2]
        · rw [if_neg hp2, List.map_cons]
          exact ht

/-! ## Claim C7: the analysis fallback -/

section AnalysisFallback

open ChatServiceA

theorem kw_of_strContains (userRequest : String) (pat : String)
    (hfix : pat.toList.map Char.toLower = pat.toList)
    (h : strContains userRequest pat = true) :
    listContains (lowerList userRequest.toList) pat.toList = true := by
  have := listContains_map Char.toLower userRequest.toList pat.toList h
  rw [hfix] at this
  exact this

/-- Claim C7: a failing delegated classification is always recovered by
`fallbackAnalysis` (never surfaced); the fallback always produces
non-empty relevant and priority metric lists drawn from the fixed
vocabulary, adding coding metrics when the text contains "code", math
metrics when it contains "math", and the image metric when it contains
"image". -/
theorem C7_analysis_fallback (primaryErr : String) (userRequest : String) :
    analyzeRequest (.error primaryErr) userRequest = fallbackAnalysis userRequest ∧
    (fallbackAnalysis userRequest).relevantMetrics ≠ [] ∧
    (fallbackAnalysis userRequest).priorityMetrics ≠ [] ∧
    (∀ m ∈ (fallbackAnalysis userRequest).relevantMetrics, m ∈ EVALUATION_METRICS) ∧
    (strContains userRequest "code" = true →
      "artificial_analysis_coding_index" ∈ (fallbackAnalysis userRequest).relevantMetrics ∧
      "live_code_benchmark_index" ∈ (fallbackAnalysis userRequest).relevantMetrics) ∧
    (strContains userRequest "math" = true →
      "artificial_analysis_math_index" ∈ (fallbackAnalysis userRequest).relevantMetrics ∧
      "math_benchmark_index" ∈ (fallbackAnalysis userRequest).relevantMetrics ∧
      "aime_index" ∈ (fallbackAnalysis userRequest).relevantMetrics) ∧
    (strContains userRequest "image" = true →
      "image_benchmark_index" ∈ (fallbackAnalysis userRequest).relevantMetrics) := by
  refine ⟨rfl, ?_, ?_, ?_, ?_, ?_, ?_⟩
  · simp only [fallbackAnalysis]
    split <;> split <;> split <;> split <;> decide
  · simp only [fallbackAnalysis]
    split <;> split <;> split <;> split <;> decide
  · simp only [fallbackAnalysis]
    split <;> split <;> split <;> split <;> decide
  · intro h
    have hk := kw_of_strContains userRequest "code" (by decide) h
    simp at hk
    simp [fallbackAnalysis, hk]
    all_goals split <;> split <;> split <;> decide
  · intro h
    have hk := kw_of_strContains userRequest "math" (by decide) h
    simp at hk
    simp [fallbackAnalysis, hk]
    all_goals split <;> split <;> split <;> decide
  · intro h
    have hk := kw_of_strContains userRequest "image" (by decide) h
    simp at hk
    simp [fallbackAnalysis, hk]

theorem C7_analysis_fallback_witness :
    strContains "solve this math image problem in code" "code" = true ∧
    strContains "solve this math image problem in code" "math" = true ∧
    strContains "solve this math image problem in code" "image" = true ∧
    ("artificial_analysis_coding_index"
        ∈ (fallbackAnalysis "solve this math image problem in code").relevantMetrics ∧
      "live_code_benchmark_index"
        ∈ (fallbackAnalysis "solve this math image problem in code").relevantMetrics) ∧
    ("artificial_analysis_math_index"
        ∈ (fallbackAnalysis "solve this math image problem in code").relevantMetrics ∧
      "math_benchmark_index"
        ∈ (fallbackAnalysis "solve this math image problem in code").relevantMetrics ∧
      "aime_index"
        ∈ (fallbackAnalysis "solve this math image problem in code").relevantMetrics) ∧
    "image_benchmark_index"
      ∈ (fallbackAnalysis "solve this math image problem in code").relevantMetrics :=
  ⟨by decide, by decide, by decide,
   (C7_analysis_fallback "err" "solve this math image problem in code").2.2.2.2.1 (by decide),
   (C7_analysis_fallback "err" "solve this math image problem in code").2.2.2.2.2.1 (by decide),
   (C7_analysis_fallback "err" "solve this math image problem in code").2.2.2.2.2.2 (by decide)⟩

end AnalysisFallback

/-! ## Claim C9: strategy-flag mutual exclusion is violated -/

/-- Claim C9 (code bug evidence): the state with both `cheapest` and
`accurate` set to `true` is reachable through the constructor followed by
`setCheapest(true)` and `setAccurate(true)` — `setModelSelection`
validates only the incoming partial settings, not the merged state. -/
theorem C9_both_strategy_flags_reachable :
    ∃ s, ConfigService.ReachableSelection s ∧ s.cheapest = true ∧ s.accurate = true := by
  refine ⟨{ cheapest := true, accurate := true, middle := true, rotating := true }, ?_, rfl, rfl⟩
  have h0 : ConfigService.ReachableSelection
      { cheapest := false, accurate := false, middle := true, rotating := true } :=
    ConfigService.ReachableSelection.init
      { cheapest := none, accurate := none, middle := none, rotating := none } _ (by decide)
  have h1 : ConfigService.ReachableSelection
      { cheapest := true, accurate := false, middle := true, rotating := true } :=
    ConfigService.ReachableSelection.update
      { cheapest := false, accurate := false, middle := true, rotating := true }
      { cheapest := some true, accurate := none, middle := none, rotating := none }
      { cheapest := true, accurate := false, middle := true, rotating := true }
      h0 (by decide)
  exact ConfigService.ReachableSelection.update
    { cheapest := true, accurate := false, middle := true, rotating := true }
    { cheapest := none, accurate := some true, middle := none, rotating := none }
    { cheapest := true, accurate := true, middle := true, rotating := true }
    h1 (by decide)

/-! ## Claim C6: provider rotation -/

section Rotation

open ChatServiceB

/-- Claim C6: rotation output is capped at 10, and for two providers P1
(older `last_used`) and P2, each contributing two candidates, the rotation
pass interleaves P1's first model, P2's first, P1's second, P2's second. -/
theorem C6_rotation_fairness :
    (∀ (llm media : List (String × Option Nat)) (models : List BModel),
      (applyProviderRotation llm media models).length ≤ 10) ∧
    (∀ t0 t1 : Nat, t0 < t1 →
      applyProviderRotation [("P1", some t0), ("P2", some t1)] []
        [ { provider_name := "P1", name := "a", price := 1, evaluations := [] }
        , { provider_name := "P1", name := "b", price := 1, evaluations := [] }
        , { provider_name := "P2", name := "c", price := 1, evaluations := [] }
        , { provider_name := "P2", name := "d", price := 1, evaluations := [] } ]
      = [ { provider_name := "P1", name := "a", price := 1, evaluations := [] }
        , { provider_name := "P2", name := "c", price := 1, evaluations := [] }
        , { provider_name := "P1", name := "b", price := 1, evaluations := [] }
        , { provider_name := "P2", name := "d", price := 1, evaluations := [] } ]) := by
  constructor
  · intro llm media models
    exact List.length_take_le _ _
  · intro t0 t1 ht
    have hne : ¬ (t1 < t0) := not_lt.mpr (le_of_lt ht)
    simp [applyProviderRotation, groupByProvider, providerLastUsed, sortAscBy,
      insertAscBy, acontains, alookup, amodify, hne]
    rfl

theorem C6_rotation_fairness_witness :
    applyProviderRotation [("P1", some 100), ("P2", some 200)] []
        [ { provider_name := "P1", name := "a", price := 1, evaluations := [] }
        , { provider_name := "P1", name := "b", price := 1, evaluations := [] }
        , { provider_name := "P2", name := "c", price := 1, evaluations := [] }
        , { provider_name := "P2", name := "d", price := 1, evaluations := [] } ]
      = [ { provider_name := "P1", name := "a", price := 1, evaluations := [] }
        , { provider_name := "P2", name := "c", price := 1, evaluations := [] }
        , { provider_name := "P1", name := "b", price := 1, evaluations := [] }
        , { provider_name := "P2", name := "d", price := 1, evaluations := [] } ] :=
  C6_rotation_fairness.2 100 200 (by decide)

end Rotation

/-! ## Claim C5: the balanced-strategy fallback -/

section BalancedFallback

open ChatServiceB

theorem mem_insertDescBy {α : Type} (key : α → ℚ) (x a : α) (l : List α) :
    a ∈ insertDescBy key x l ↔ a = x ∨ a ∈ l := by
  induction l with
  | nil => simp [insertDescBy]
  | cons y ys ih =>
    unfold insertDescBy
    by_cases h : key y < key x
    · rw [if_pos h]
      simp
    · rw [if_neg h]
      simp only [List.mem_cons, ih]
      tauto

theorem mem_foldl_insertDescBy {α : Type} (key : α → ℚ) (l : List α) (acc : List α)
    (a : α) (h : a ∈ l.foldl (fun acc x => insertDescBy key x acc) acc) :
    a ∈ acc ∨ a ∈ l := by
  induction l generalizing acc with
  | nil => exact Or.inl h
  | cons x xs ih =>
    rcases ih (insertDescBy key x acc) h with h1 | h1
    · rcases (mem_insertDescBy key x a acc).mp h1 with h2 | h2
      · exact Or.inr (by simp [h2])
      · exact Or.inl h2
    · exact Or.inr (List.mem_cons_of_mem _ h1)

theorem mem_sortDescBy {α : Type} (key : α → ℚ) (l : List α) (a : α)
    (h : a ∈ sortDescBy key l) : a ∈ l := by
  rcases mem_foldl_insertDescBy key l [] a h with h1 | h1
  · exact absurd h1 (List.not_mem_nil a)
  · exact h1

theorem pairwise_insertDescBy {α : Type} (key : α → ℚ) (x : α) (l : List α)
    (h : List.Pairwise (fun a b => key b ≤ key a) l) :
    List.Pairwise (fun a b => key b ≤ key a) (insertDescBy key x l) := by
  induction l with
  | nil => simp [insertDescBy]
  | cons y ys ih =>
    rw [List.pairwise_cons] at h
    unfold insertDescBy
    by_cases hxy : key y < key x
    · rw [if_pos hxy]
      rw [List.pairwise_cons]
      refine ⟨?_, List.pairwise_cons.mpr h⟩
      intro b hb
      rcases List.mem_cons.mp hb with h1 | h1
      · rw [h1]
        exact le_of_lt hxy
      · exact le_trans (h.1 b h1) (le_of_lt hxy)
    · rw [if_neg hxy]
      rw [List.pairwise_cons]
      refine ⟨?_, ih h.2⟩
      intro b hb
      rcases (mem_insertDescBy key x b ys).mp hb with h1 | h1
      · rw [h1]
        exact not_lt.mp hxy
      · exact h.1 b h1

theorem pairwise_foldl_insertDescBy {α : Type} (key : α → ℚ) (l : List α) (acc : List α)
    (h : List.Pairwise (fun a b => key b ≤ key a) acc) :
    List.Pairwise (fun a b => key b ≤ key a)
      (l.foldl (fun acc x => insertDescBy key x acc) acc) := by
  induction l generalizing acc with
  | nil => exact h
  | cons x xs ih => exact ih _ (pairwise_insertDescBy key x acc h)

theorem pairwise_sortDescBy {α : Type} (key : α → ℚ) (l : List α) :
    List.Pairwise (fun a b => key b ≤ key a) (sortDescBy key l) :=
  pairwise_foldl_insertDescBy key l [] (by simp)

/-- Claim C5: whenever the delegated balanced-ranking call or the parse of
its response fails, the selection equals the deterministic
`selectBalancedModels` fallback: only models with positive price, in
descending `score / price` order, truncated to the top 5. -/
theorem C5_balanced_fallback (models : List BModel) (relevantMetrics : List String)
    (delegated : Except String ParsedRanking)
    (hfail : delegatedRankingFailed delegated) (_hm : relevantMetrics ≠ []) :
    selectBalancedModelsWithLLM delegated models relevantMetrics
        = selectBalancedModels models relevantMetrics ∧
    (∀ m ∈ selectBalancedModels models relevantMetrics, 0 < m.price ∧ m ∈ models) ∧
    (selectBalancedModels models relevantMetrics).length ≤ 5 ∧
    List.Pairwise
      (fun a b => valueScore relevantMetrics b ≤ valueScore relevantMetrics a)
      (selectBalancedModels models relevantMetrics) := by
  have hmem : ∀ p ∈ (sortDescBy (fun p => p.2)
      ((models.filter (fun m => decide (0 < m.price))).map
        (fun m => (m, valueScore relevantMetrics m)))).take 5,
      ∃ m0, m0 ∈ models.filter (fun m => decide (0 < m.price)) ∧
        p = (m0, valueScore relevantMetrics m0) := by
    intro p hp
    have h1 : p ∈ sortDescBy (fun p => p.2)
        ((models.filter (fun m => decide (0 < m.price))).map
          (fun m => (m, valueScore relevantMetrics m))) :=
      List.take_subset _ _ hp
    have h2 := mem_sortDescBy _ _ _ h1
    rcases List.mem_map.mp h2 with ⟨m0, hm0, hpe⟩
    exact ⟨m0, hm0, hpe.symm⟩
  refine ⟨?_, ?_, ?_, ?_⟩
  · cases delegated with
    | error e => rfl
    | ok r =>
        cases r with
        | parseError => rfl
        | notArray => rfl
        | arr names => exact absurd hfail (by simp [delegatedRankingFailed])
  · intro m hmm
    rcases List.mem_map.mp hmm with ⟨p, hp, hpm⟩
    rcases hmem p hp with ⟨m0, hm0, hpe⟩
    have : m = m0 := by rw [← hpm, hpe]
    subst this
    have := List.mem_filter.mp hm0
    exact ⟨by simpa using this.2, this.1⟩
  · unfold selectBalancedModels
    rw [List.length_map]
    exact List.length_take_le _ _
  · unfold selectBalancedModels
    rw [List.pairwise_map]
    have hpw : List.Pairwise (fun (a b : BModel × ℚ) => b.2 ≤ a.2)
        ((sortDescBy (fun p => p.2)
          ((models.filter (fun m => decide (0 < m.price))).map
            (fun m => (m, valueScore relevantMetrics m)))).take 5) :=
      (pairwise_sortDescBy (fun (p : BModel × ℚ) => p.2) _).sublist (List.take_sublist _ _)
    refine hpw.imp_of_mem ?_
    intro a b ha hb hab
    rcases hmem a ha with ⟨ma, _, hae⟩
    rcases hmem b hb with ⟨mb, _, hbe⟩
    rw [hae, hbe] at hab ⊢
    exact hab

theorem C5_balanced_fallback_witness :
    (["m"] : List String) ≠ [] ∧
    (selectBalancedModelsWithLLM (.ok .parseError)
        [ { provider_name := "q", name := "B", price := 10
          , evaluations := [("m", 19/20)] }
        , { provider_name := "q", name := "A", price := 1
          , evaluations := [("m", 9/10)] } ] ["m"]
      = selectBalancedModels
        [ { provider_name := "q", name := "B", price := 10
          , evaluations := [("m", 19/20)] }
        , { provider_name := "q", name := "A", price := 1
          , evaluations := [("m", 9/10)] } ] ["m"]) ∧
    selectBalancedModels
        [ { provider_name := "q", name := "B", price := 10
          , evaluations := [("m", 19/20)] }
        , { provider_name := "q", name := "A", price := 1
          , evaluations := [("m", 9/10)] } ] ["m"]
      = [ { provider_name := "q", name := "A", price := 1
          , evaluations := [("m", 9/10)] }
        , { provider_name := "q", name := "B", price := 10
          , evaluations := [("m", 19/20)] } ] :=
  ⟨by decide,
   (C5_balanced_fallback _ ["m"] (.ok .parseError) trivial (by decide)).1,
   by norm_num [selectBalancedModels, sortDescBy, insertDescBy, valueScore,
     relevantScore, alookup]⟩

end BalancedFallback

/-! ## Claim C10: the top-level execution is total and classifies failures -/

section ExecuteTotal

open ChatServiceA

theorem execLoop_success_iff (health : HealthMap) (now : Int) (ms : List MEntry) :
    (execLoop health now ms).response.success = true ↔
      ∃ e ∈ ms, e.isMedia = false ∧ ∃ d, e.outcome = Except.ok d := by
  induction ms generalizing health with
  | nil => simp [execLoop]
  | cons e rest ih =>
    by_cases hm : e.isMedia
    · simp only [execLoop, if_pos hm]
      rw [ih]
      constructor
      · rintro ⟨e', he', hp⟩
        exact ⟨e', List.mem_cons_of_mem _ he', hp⟩
      · rintro ⟨e', he', hp⟩
        rcases List.mem_cons.mp he' with h1 | h1
        · subst h1
          rw [hm] at hp
          exact absurd hp.1 (by simp)
        · exact ⟨e', h1, hp⟩
    · have hmf : e.isMedia = false := by
        revert hm
        cases e.isMedia <;> simp
      cases ho : e.outcome with
      | ok d =>
          simp only [execLoop, if_neg hm, ho]
          constructor
          · intro _
            exact ⟨e, List.mem_cons_self e rest, hmf, d, ho⟩
          · intro _
            trivial
      | error err =>
          simp only [execLoop, if_neg hm, ho]
          rw [ih]
          constructor
          · rintro ⟨e', he', hp⟩
            exact ⟨e', List.mem_cons_of_mem _ he', hp⟩
          · rintro ⟨e', he', hp⟩
            rcases List.mem_cons.mp he' with h1 | h1
            · subst h1
              rcases hp.2 with ⟨d, hd⟩
              rw [ho] at hd
              exact absurd hd (by simp)
            · exact ⟨e', h1, hp⟩

theorem foldl_rank_subset {α : Type} (orig : List α) (idxs : List Int)
    (acc : List α × List Int) (hacc : ∀ x ∈ acc.1, x ∈ orig) (x : α)
    (hx : x ∈ (idxs.foldl
      (fun (acc : List α × List Int) i =>
        if acc.2.contains i then acc
        else
          match orig.get? i.toNat with
          | some m => (acc.1 ++ [m], acc.2 ++ [i])
          | none => acc) acc).1) :
    x ∈ orig := by
  induction idxs generalizing acc with
  | nil => exact hacc x hx
  | cons i is ih =>
    refine ih _ ?_ hx
    by_cases hc : acc.2.contains i
    · simp only [List.foldl_cons, if_pos hc]
      exact hacc
    · simp only [List.foldl_cons, if_neg hc]
      cases hg : orig.get? i.toNat with
      | none => exact hacc
      | some m =>
          intro y hy
          rcases List.mem_append.mp hy with h1 | h1
          · exact hacc y h1
          · rw [List.mem_singleton.mp h1]
            exact List.get?_mem hg

theorem parse_rank_subset {α : Type} (response : String) (orig : List α) (a : α)
    (h : a ∈ parseModelRankingResponse response orig) : a ∈ orig := by
  unfold parseModelRankingResponse at h
  cases hf : findNumberMatch response.toList with
  | none =>
      rw [hf] at h
      exact h
  | some matched =>
      rw [hf] at h
      simp only [] at h
      split at h
      · exact h
      · rcases List.mem_append.mp h with h1 | h1
        · exact foldl_rank_subset orig _ ([], []) (by intro y hy; exact absurd hy (List.not_mem_nil y)) a h1
        · rcases List.mem_filterMap.mp h1 with ⟨j, _, hj⟩
          by_cases hc : (List.foldl
              (fun (acc : List α × List Int) i =>
                if acc.2.contains i then acc
                else
                  match orig.get? i.toNat with
                  | some m => (acc.1 ++ [m], acc.2 ++ [i])
                  | none => acc) ([], [])
              (List.filter (fun i => decide (0 ≤ i) && decide (i < (orig.length : Int)))
                (List.map (fun s => (natFromDigits (trimChars s) : Int) - 1)
                  (splitOnChar ',' matched)))).2.contains (Int.ofNat j)
          · rw [if_pos hc] at hj
            exact absurd hj (by simp)
          · rw [if_neg hc] at hj
            exact List.get?_mem hj

theorem rank_subset {α : Type} (outcome : Except String String) (models : List α) (a : α)
    (h : a ∈ rankModelsWithLLM outcome models) : a ∈ models := by
  cases outcome with
  | error e => exact h
  | ok response => exact parse_rank_subset response models a h

/-- Claim C10: the composed `execute` pipeline is a total function into a
structured `ChatResponse`; it reports success only when some non-media
candidate's provider call succeeded, and when every candidate is media or
failing (including any analysis or ranking failure), the result has
`success = false`. -/
theorem C10_execute_classifies (primary : Except String AnalysisResult)
    (userRequest : String) (filteredModels : List MEntry)
    (rankOutcome : Except String String) (health : HealthMap) (now : Int) :
    ((chatExecute primary userRequest filteredModels rankOutcome health now).1.success = true →
      ∃ e ∈ filteredModels, e.isMedia = false ∧ ∃ d, e.outcome = Except.ok d) ∧
    ((∀ e ∈ filteredModels, e.isMedia = true ∨ ∃ err, e.outcome = Except.error err) →
      (chatExecute primary userRequest filteredModels rankOutcome health now).1.success
        = false) := by
  constructor
  · intro h
    have h1 : (execLoop health now (rankModelsWithLLM rankOutcome filteredModels)).response.success = true := h
    rcases (execLoop_success_iff health now _).mp h1 with ⟨e, he, hp⟩
    exact ⟨e, rank_subset rankOutcome filteredModels e he, hp⟩
  · intro hall
    cases hsu : (chatExecute primary userRequest filteredModels rankOutcome health now).1.success with
    | false => rfl
    | true =>
        have h1 : (execLoop health now (rankModelsWithLLM rankOutcome filteredModels)).response.success = true := hsu
        rcases (execLoop_success_iff health now _).mp h1 with ⟨e, he, hmf, d, hd⟩
        rcases hall e (rank_subset rankOutcome filteredModels e he) with h2 | ⟨err, herr⟩
        · rw [hmf] at h2
          exact absurd h2 (by simp)
        · rw [hd] at herr
          exact absurd herr (by simp)

theorem C10_execute_classifies_witness :
    (chatExecute (.error "analysis failed") "req"
        [{ key := "p:m", isMedia := false
         , outcome := .error { status := none, statusCode := none, message := "boom" } }]
        (.error "ranking failed") [] 0).1.success = false :=
  (C10_execute_classifies (.error "analysis failed") "req"
      [{ key := "p:m", isMedia := false
       , outcome := .error { status := none, statusCode := none, message := "boom" } }]
      (.error "ranking failed") [] 0).2
    (by
      intro e he
      rw [List.mem_singleton] at he
      subst he
      exact Or.inr ⟨_, rfl⟩)

end ExecuteTotal

/-! ## Claim C4: the staleness purge misses never-used models -/

section StalePurge

open DataService

/-- Claim C4 (code bug evidence): refresh with a snapshot holding only
model `P:m1`, then refresh again with a snapshot holding only `P:m2`.
Model `m1` was never used — its `last_used` is `undefined`, because
`DataManagementService.ensureLLMModel` never initialises the field — yet
the purge keeps it, since `undefined === null` is false.  The claim (and
the spec's staleness rule) says a never-used model absent from the latest
snapshot is removed. -/
theorem C4_stale_unused_model_retained :
    (lookupModel
        (populateLLMData
          [{ name := "m1", creator_name := "P", price_per_1M_input_tokens := 3
           , price_per_1M_output_tokens := 4, median_output_tokens_per_second := 5
           , median_time_to_first_token := 6
           , evaluations := [[("artificial_analysis_intelligence_index", 50)]] }]
          [])
        "P" "m1").map LLMModelRec.last_used = some .undef ∧
    (lookupModel
        (populateLLMData
          [{ name := "m2", creator_name := "P", price_per_1M_input_tokens := 1
           , price_per_1M_output_tokens := 1, median_output_tokens_per_second := 1
           , median_time_to_first_token := 1, evaluations := [] }]
          (populateLLMData
            [{ name := "m1", creator_name := "P", price_per_1M_input_tokens := 3
             , price_per_1M_output_tokens := 4, median_output_tokens_per_second := 5
             , median_time_to_first_token := 6
             , evaluations := [[("artificial_analysis_intelligence_index", 50)]] }]
            []))
        "P" "m1").map LLMModelRec.last_used = some .undef := by
  decide

end StalePurge

/-! ## Claim C8: refresh idempotence and usage/health preservation -/

section Refresh

open DataService

theorem amodify_amodify {β : Type} (l : List (String × β)) (k : String) (f1 f2 : β → β) :
    amodify (amodify l k f1) k f2 = amodify l k (fun v => f2 (f1 v)) := by
  unfold amodify
  rw [List.map_map]
  apply List.map_congr_left
  intro p _
  by_cases hp : p.1 = k
  · simp [hp]
  · simp [hp]

theorem amodify_noop_all {β : Type} (l : List (String × β)) (k : String) (f : β → β)
    (h : ∀ p ∈ l, p.1 = k → f p.2 = p.2) : amodify l k f = l := by
  unfold amodify
  have h1 : ∀ p ∈ l, (if p.1 = k then (p.1, f p.2) else p) = id p := by
    intro p hp
    by_cases hk : p.1 = k
    · rw [if_pos hk]
      obtain ⟨p1, p2⟩ := p
      simp only [id_eq]
      rw [h ⟨p1, p2⟩ hp hk]
    · rw [if_neg hk]
      rfl
  rw [List.map_congr_left h1, List.map_id]

theorem mem_amodify {β : Type} (l : List (String × β)) (k : String) (f : β → β)
    (pr : String × β) (h : pr ∈ amodify l k f) :
    ∃ pr0 ∈ l, (pr0.1 = k ∧ pr = (pr0.1, f pr0.2)) ∨ (¬pr0.1 = k ∧ pr = pr0) := by
  rcases List.mem_map.mp h with ⟨pr0, h0, he⟩
  by_cases hk : pr0.1 = k
  · rw [if_pos hk] at he
    exact ⟨pr0, h0, Or.inl ⟨hk, he.symm⟩⟩
  · rw [if_neg hk] at he
    exact ⟨pr0, h0, Or.inr ⟨hk, he.symm⟩⟩

theorem aset_AllEq_self {β : Type} (l : List (String × β)) (k : String) (v : β) :
    AllEq (aset l k v) k v := by
  unfold aset acontains
  cases hl : alookup l k with
  | some w =>
      rw [if_pos (show (some w).isSome = true from rfl)]
      intro p hp hk
      rcases List.mem_map.mp hp with ⟨p0, _, he⟩
      by_cases h0 : p0.1 = k
      · rw [if_pos h0] at he
        rw [← he]
      · rw [if_neg h0] at he
        rw [← he] at hk
        exact absurd hk h0
  | none =>
      rw [if_neg (by simp)]
      intro p hp hk
      rcases List.mem_append.mp hp with h1 | h1
      · have : k ∉ l.map Prod.fst := (alookup_none_iff l k).mp hl
        exact absurd (hk ▸ List.mem_map_of_mem Prod.fst h1) this
      · rw [List.mem_singleton.mp h1]

theorem aset_AllEq_other {β : Type} (l : List (String × β)) (k : String) (v : β)
    (k' : String) (v' : β) (h : AllEq l k' v') (hk : k' ≠ k) :
    AllEq (aset l k v) k' v' := by
  unfold aset acontains
  cases hl : alookup l k with
  | some w =>
      rw [if_pos (show (some w).isSome = true from rfl)]
      intro p hp hke
      rcases List.mem_map.mp hp with ⟨p0, h0, he⟩
      by_cases hp0 : p0.1 = k
      · rw [if_pos hp0] at he
        rw [← he] at hke
        exact absurd hke.symm hk
      · rw [if_neg hp0] at he
        rw [← he]
        rw [← he] at hke
        exact h p0 h0 hke
  | none =>
      rw [if_neg (by simp)]
      intro p hp hke
      rcases List.mem_append.mp hp with h1 | h1
      · exact h p h1 hke
      · rw [List.mem_singleton.mp h1] at hke
        exact absurd hke.symm hk

theorem aset_isSome_self {β : Type} (l : List (String × β)) (k : String) (v : β) :
    (alookup (aset l k v) k).isSome := by
  rw [alookup_aset_self]
  rfl

theorem aset_isSome_other {β : Type} (l : List (String × β)) (k : String) (v : β)
    (k' : String) (h : (alookup l k').isSome) : (alookup (aset l k v) k').isSome := by
  by_cases hk : k' = k
  · subst hk
    exact aset_isSome_self l k' v
  · rw [alookup_aset_other l k k' v hk]
    exact h

theorem aset_noop_all {β : Type} (l : List (String × β)) (k : String) (v : β)
    (hs : (alookup l k).isSome) (h : AllEq l k v) : aset l k v = l := by
  unfold aset acontains
  rw [if_pos hs]
  have h1 : ∀ p ∈ l, (if p.1 = k then (k, v) else p) = id p := by
    intro p hp
    by_cases hk : p.1 = k
    · rw [if_pos hk]
      obtain ⟨p1, p2⟩ := p
      simp only [id_eq]
      have := h ⟨p1, p2⟩ hp hk
      simp only at hk this
      rw [hk, this]
    · rw [if_neg hk]
      rfl
  rw [List.map_congr_left h1, List.map_id]

theorem applyWrites_cons (kv : String × Int) (ws : List (String × Int))
    (l : List (String × Int)) :
    applyWrites (kv :: ws) l = applyWrites ws (aset l kv.1 kv.2) := rfl

theorem applyWrites_isSome (ws : List (String × Int)) (l : List (String × Int))
    (k : String) (h : (alookup l k).isSome) :
    (alookup (applyWrites ws l) k).isSome := by
  induction ws generalizing l with
  | nil => exact h
  | cons kv rest ih =>
      rw [applyWrites_cons]
      exact ih _ (aset_isSome_other l kv.1 kv.2 k h)

theorem applyWrites_AllEq (ws : List (String × Int)) (l : List (String × Int))
    (k : String) (v : Int) (hk : ∀ kv ∈ ws, kv.1 ≠ k) (h : AllEq l k v) :
    AllEq (applyWrites ws l) k v := by
  induction ws generalizing l with
  | nil => exact h
  | cons kv rest ih =>
      rw [applyWrites_cons]
      refine ih _ (fun kv' h' => hk kv' (List.mem_cons_of_mem _ h')) ?_
      exact aset_AllEq_other l kv.1 kv.2 k v h (Ne.symm (hk kv (List.mem_cons_self _ _)))

theorem applyWrites_settled (ws : List (String × Int)) (l : List (String × Int))
    (hnd : (ws.map Prod.fst).Nodup) :
    ∀ kv ∈ ws, (alookup (applyWrites ws l) kv.1).isSome ∧
      AllEq (applyWrites ws l) kv.1 kv.2 := by
  induction ws generalizing l with
  | nil => intro kv h; exact absurd h (List.not_mem_nil kv)
  | cons kv0 rest ih =>
      simp only [List.map_cons, List.nodup_cons] at hnd
      intro kv hkv
      rcases List.mem_cons.mp hkv with h1 | h1
      · subst h1
        rw [applyWrites_cons]
        constructor
        · exact applyWrites_isSome rest _ kv.1 (aset_isSome_self l kv.1 kv.2)
        · refine applyWrites_AllEq rest _ kv.1 kv.2 ?_ (aset_AllEq_self l kv.1 kv.2)
          intro kv' h'
          intro he
          exact hnd.1 (he ▸ List.mem_map_of_mem Prod.fst h')
      · rw [applyWrites_cons]
        exact ih _ hnd.2 kv h1

theorem applyWrites_noop (ws : List (String × Int)) (l : List (String × Int))
    (h : ∀ kv ∈ ws, (alookup l kv.1).isSome ∧ AllEq l kv.1 kv.2) :
    applyWrites ws l = l := by
  induction ws with
  | nil => rfl
  | cons kv rest ih =>
      rw [applyWrites_cons]
      have h0 := h kv (List.mem_cons_self _ _)
      rw [aset_noop_all l kv.1 kv.2 h0.1 h0.2]
      exact ih (fun kv' h' => h kv' (List.mem_cons_of_mem _ h'))

theorem applyWrites_idem (ws : List (String × Int)) (l : List (String × Int))
    (hnd : (ws.map Prod.fst).Nodup) :
    applyWrites ws (applyWrites ws l) = applyWrites ws l :=
  applyWrites_noop ws _ (applyWrites_settled ws l hnd)

theorem updRecord_healthProj (i : SnapItem) (m : LLMModelRec) :
    healthProj (updRecord i m) = healthProj m := rfl

theorem updRecord_idem (i : SnapItem) (m : LLMModelRec)
    (hnd : ((metricWrites i).map Prod.fst).Nodup) :
    updRecord i (updRecord i m) = updRecord i m := by
  have h := applyWrites_idem (metricWrites i) m.evaluations hnd
  simp [updRecord, h]

theorem alookup_mem {β : Type} (l : List (String × β)) (k : String) (v : β)
    (h : alookup l k = some v) : (k, v) ∈ l := by
  induction l with
  | nil => simp [alookup] at h
  | cons p t ih =>
    rw [alookup_cons] at h
    by_cases hp : p.1 = k
    · rw [if_pos hp] at h
      have hv := Option.some.inj h
      have : (k, v) = p := by
        obtain ⟨p1, p2⟩ := p
        simp only at hp hv
        rw [hp, hv]
      rw [this]
      exact List.mem_cons_self p t
    · rw [if_neg hp] at h
      exact List.mem_cons_of_mem p (ih h)

theorem updItem_eq (reg : Registry) (i : SnapItem) :
    updItem reg i =
      amodify (ensureLLMProviderReg reg i.creator_name) i.creator_name (updProvFn i) := by
  unfold updItem modifyModel ensureLLMModelReg
  rw [amodify_amodify]
  rfl

theorem ensureProv_noop (reg : Registry) (p : String)
    (h : (alookup reg p).isSome) : ensureLLMProviderReg reg p = reg := by
  unfold ensureLLMProviderReg acontains
  rw [if_pos h]

theorem ensureProv_isSome (reg : Registry) (p : String) :
    (alookup (ensureLLMProviderReg reg p) p).isSome := by
  unfold ensureLLMProviderReg acontains
  cases hl : alookup reg p with
  | some w => rw [if_pos (show (some w).isSome = true from rfl)]; rw [hl]; rfl
  | none =>
      rw [if_neg (by simp), alookup_append, hl]
      simp [alookup]

theorem ensureProv_lookup_other (reg : Registry) (p p' : String) (hp : p' ≠ p) :
    alookup (ensureLLMProviderReg reg p) p' = alookup reg p' := by
  unfold ensureLLMProviderReg acontains
  cases hl : alookup reg p with
  | some w => rw [if_pos (show (some w).isSome = true from rfl)]
  | none =>
      rw [if_neg (by simp), alookup_append]
      cases hl' : alookup reg p' with
      | some w => rfl
      | none =>
          show alookup [(p, _)] p' = none
          rw [alookup_cons, if_neg (fun h => hp h.symm)]
          rfl

theorem mem_ensureProv (reg : Registry) (p : String) (pr : String × LLMProviderRec)
    (h : pr ∈ ensureLLMProviderReg reg p) :
    pr ∈ reg ∨ pr = (p, { has_api_key := false, models := [], last_used := .null }) := by
  unfold ensureLLMProviderReg at h
  by_cases hc : acontains reg p = true
  · rw [if_pos hc] at h
    exact Or.inl h
  · rw [if_neg hc] at h
    rcases List.mem_append.mp h with h1 | h1
    · exact Or.inl h1
    · exact Or.inr (List.mem_singleton.mp h1)

theorem alookup_append_some {β : Type} (l₁ l₂ : List (String × β)) (k : String) (v : β)
    (h : alookup l₁ k = some v) : alookup (l₁ ++ l₂) k = some v := by
  rw [alookup_append, h]

theorem ensureModelFn_lookup_other (pn mn : String) (prov : LLMProviderRec)
    (m : String) (hm : m ≠ mn) :
    alookup (ensureModelFn pn mn prov).models m = alookup prov.models m := by
  unfold ensureModelFn acontains
  cases hl : alookup prov.models mn with
  | some w => rw [if_pos (show (some w).isSome = true from rfl)]
  | none =>
      rw [if_neg (by simp)]
      show alookup (prov.models ++ [(mn, _)]) m = _
      rw [alookup_append]
      cases hl' : alookup prov.models m with
      | some w => rfl
      | none =>
          show alookup [(mn, _)] m = none
          rw [alookup_cons, if_neg (fun h => hm h.symm)]
          rfl

theorem ensureModelFn_isSome (pn mn : String) (prov : LLMProviderRec) :
    (alookup (ensureModelFn pn mn prov).models mn).isSome := by
  unfold ensureModelFn acontains
  cases hl : alookup prov.models mn with
  | some w => rw [if_pos (show (some w).isSome = true from rfl)]; rw [hl]; rfl
  | none =>
      rw [if_neg (by simp)]
      show (alookup (prov.models ++ [(mn, _)]) mn).isSome
      rw [alookup_append, hl, alookup_cons, if_pos rfl]
      rfl

theorem mem_ensureModelFn_models (pn mn : String) (prov : LLMProviderRec)
    (mr : String × LLMModelRec) (h : mr ∈ (ensureModelFn pn mn prov).models) :
    mr ∈ prov.models ∨ mr = (mn, newLLMModel pn mn) := by
  unfold ensureModelFn at h
  by_cases hc : acontains prov.models mn = true
  · rw [if_pos hc] at h
    exact Or.inl h
  · rw [if_neg hc] at h
    simp only at h
    rcases List.mem_append.mp h with h1 | h1
    · exact Or.inl h1
    · exact Or.inr (List.mem_singleton.mp h1)

theorem updProvFn_models (i : SnapItem) (prov : LLMProviderRec) :
    (updProvFn i prov).models =
      amodify (ensureModelFn i.creator_name i.name prov).models i.name (updRecord i) := rfl

theorem updItem_lookup_other (reg : Registry) (i : SnapItem) (p m : String)
    (h : ¬(p = i.creator_name ∧ m = i.name)) :
    lookupModel (updItem reg i) p m = lookupModel reg p m := by
  rw [updItem_eq]
  unfold lookupModel
  by_cases hp : p = i.creator_name
  · have hm : m ≠ i.name := fun hmn => h ⟨hp, hmn⟩
    rw [hp]
    cases hl : alookup reg i.creator_name with
    | some prov =>
        rw [ensureProv_noop reg i.creator_name (by rw [hl]; rfl)]
        rw [amodify_lookup_self reg i.creator_name (updProvFn i) prov hl]
        show alookup (updProvFn i prov).models m = alookup prov.models m
        rw [updProvFn_models]
        rw [amodify_lookup_other _ _ _ _ hm]
        exact ensureModelFn_lookup_other _ _ prov m hm
    | none =>
        have h1 : alookup (ensureLLMProviderReg reg i.creator_name) i.creator_name =
            some { has_api_key := false, models := [], last_used := .null } := by
          unfold ensureLLMProviderReg acontains
          rw [hl]
          rw [if_neg (by simp), alookup_append, hl]
          show alookup [(i.creator_name, _)] i.creator_name = _
          rw [alookup_cons, if_pos rfl]
        rw [amodify_lookup_self _ i.creator_name (updProvFn i) _ h1]
        show alookup (updProvFn i _).models m = none
        rw [updProvFn_models]
        rw [amodify_lookup_other _ _ _ _ hm]
        rw [ensureModelFn_lookup_other _ _ _ m hm]
        rfl
  · rw [amodify_lookup_other _ _ _ _ hp]
    rw [ensureProv_lookup_other reg _ p hp]

theorem updItem_lookup_self (reg : Registry) (i : SnapItem) (r : LLMModelRec)
    (h : lookupModel reg i.creator_name i.name = some r) :
    lookupModel (updItem reg i) i.creator_name i.name = some (updRecord i r) := by
  unfold lookupModel at h
  cases hl : alookup reg i.creator_name with
  | none => rw [hl] at h; exact absurd h (by simp)
  | some prov =>
      rw [hl] at h
      have hmods : alookup prov.models i.name = some r := h
      rw [updItem_eq]
      unfold lookupModel
      rw [ensureProv_noop reg _ (by rw [hl]; rfl)]
      rw [amodify_lookup_self reg _ (updProvFn i) prov hl]
      show alookup (updProvFn i prov).models i.name = some (updRecord i r)
      rw [updProvFn_models]
      have hens : ensureModelFn i.creator_name i.name prov = prov := by
        unfold ensureModelFn acontains
        rw [hmods]
        rw [if_pos (show (some r).isSome = true from rfl)]
      rw [hens]
      exact amodify_lookup_self prov.models i.name (updRecord i) r hmods

theorem updItem_proj (reg : Registry) (i : SnapItem) (p m : String) (r : LLMModelRec)
    (h : lookupModel reg p m = some r) :
    ∃ r2, lookupModel (updItem reg i) p m = some r2 ∧ healthProj r2 = healthProj r := by
  by_cases hk : p = i.creator_name ∧ m = i.name
  · obtain ⟨hp, hm⟩ := hk
    subst hp; subst hm
    exact ⟨updRecord i r, updItem_lookup_self reg i r h, updRecord_healthProj i r⟩
  · exact ⟨r, by rw [updItem_lookup_other reg i p m hk]; exact h, rfl⟩

theorem extract_cons (i : SnapItem) (rest : List SnapItem) (reg : Registry) :
    extractLLMData (i :: rest) reg = extractLLMData rest (updItem reg i) := rfl

theorem extract_proj (data : List SnapItem) (reg : Registry) (p m : String)
    (r : LLMModelRec) (h : lookupModel reg p m = some r) :
    ∃ r2, lookupModel (extractLLMData data reg) p m = some r2 ∧
      healthProj r2 = healthProj r := by
  induction data generalizing reg r with
  | nil => exact ⟨r, h, rfl⟩
  | cons i rest ih =>
      rw [extract_cons]
      rcases updItem_proj reg i p m r h with ⟨r2, h2, hp2⟩
      rcases ih (updItem reg i) r2 h2 with ⟨r3, h3, hp3⟩
      exact ⟨r3, h3, hp3.trans hp2⟩

theorem upd_noop (reg : Registry) (i : SnapItem) (hs : ItemSettled reg i) :
    updItem reg i = reg := by
  rw [updItem_eq]
  rw [ensureProv_noop reg _ hs.1]
  apply amodify_noop_all
  intro pr hpr hk
  have h2 := hs.2 pr hpr hk
  unfold updProvFn modelUpdFn
  have hens : ensureModelFn i.creator_name i.name pr.2 = pr.2 := by
    unfold ensureModelFn acontains
    rw [if_pos h2.1]
  rw [hens]
  have hmods : amodify pr.2.models i.name (updRecord i) = pr.2.models := by
    apply amodify_noop_all
    intro mr hmr hmk
    exact h2.2 mr hmr hmk
  rw [hmods]

theorem updItem_settles (reg : Registry) (i : SnapItem)
    (hnd : ((metricWrites i).map Prod.fst).Nodup) :
    ItemSettled (updItem reg i) i := by
  rw [updItem_eq]
  constructor
  · cases hE : alookup (ensureLLMProviderReg reg i.creator_name) i.creator_name with
    | none =>
        have := ensureProv_isSome reg i.creator_name
        rw [hE] at this
        exact absurd this (by simp)
    | some prov =>
        rw [amodify_lookup_self _ _ (updProvFn i) prov hE]
        rfl
  · intro pr hpr hk
    rcases mem_amodify _ _ _ pr hpr with ⟨pr0, h0, hc⟩
    rcases hc with ⟨hk0, he⟩ | ⟨hk0, he⟩
    · subst he
      constructor
      · show (alookup (updProvFn i pr0.2).models i.name).isSome
        rw [updProvFn_models]
        cases hEm : alookup (ensureModelFn i.creator_name i.name pr0.2).models i.name with
        | none =>
            have := ensureModelFn_isSome i.creator_name i.name pr0.2
            rw [hEm] at this
            exact absurd this (by simp)
        | some r0 =>
            rw [amodify_lookup_self _ _ (updRecord i) r0 hEm]
            rfl
      · intro mr hmr hmk
        show updRecord i mr.2 = mr.2
        rw [updProvFn_models] at hmr
        rcases mem_amodify _ _ _ mr hmr with ⟨mr0, hm0, hmc⟩
        rcases hmc with ⟨hmk0, hme⟩ | ⟨hmk0, hme⟩
        · subst hme
          exact updRecord_idem i mr0.2 hnd
        · subst hme
          exact absurd hmk hmk0
    · subst he
      exact absurd hk hk0

theorem updItem_preserves_settled (reg : Registry) (i j : SnapItem)
    (hij : itemKey j ≠ itemKey i) (hs : ItemSettled reg i) :
    ItemSettled (updItem reg j) i := by
  rw [updItem_eq]
  by_cases hc : j.creator_name = i.creator_name
  · have hn : j.name ≠ i.name := by
      intro hn
      exact hij (by unfold itemKey; rw [hc, hn])
    constructor
    · rcases Option.isSome_iff_exists.mp hs.1 with ⟨prov, hl⟩
      rw [ensureProv_noop reg _ (by rw [hc, hl]; rfl)]
      rw [hc]
      rw [amodify_lookup_self reg _ (updProvFn j) prov hl]
      rfl
    · intro pr hpr hk
      rcases Option.isSome_iff_exists.mp hs.1 with ⟨provF, hlF⟩
      rw [ensureProv_noop reg _ (by rw [hc, hlF]; rfl)] at hpr
      rcases mem_amodify _ _ _ pr hpr with ⟨pr0, h0, hcase⟩
      rcases hcase with ⟨hk0, he⟩ | ⟨hk0, he⟩
      · subst he
        have h2 := hs.2 pr0 h0 (hc ▸ hk0)
        constructor
        · show (alookup (updProvFn j pr0.2).models i.name).isSome
          rw [updProvFn_models]
          rw [amodify_lookup_other _ _ _ _ hn.symm]
          rw [ensureModelFn_lookup_other _ _ _ i.name hn.symm]
          exact h2.1
        · intro mr hmr hmk
          show updRecord i mr.2 = mr.2
          rw [updProvFn_models] at hmr
          rcases mem_amodify _ _ _ mr hmr with ⟨mr0, hm0, hmc⟩
          rcases hmc with ⟨hmk0, hme⟩ | ⟨hmk0, hme⟩
          · subst hme
            exact absurd (hmk0 ▸ hmk : j.name = i.name) hn
          · subst hme
            rcases mem_ensureModelFn_models _ _ _ mr hm0 with h3 | h3
            · exact h2.2 mr h3 hmk
            · rw [h3] at hmk
              exact absurd hmk hn
      · subst he
        exact hs.2 pr h0 hk
  · constructor
    · rw [amodify_lookup_other _ _ _ _ (fun h => hc h.symm)]
      rw [ensureProv_lookup_other reg _ _ (fun h => hc h.symm)]
      exact hs.1
    · intro pr hpr hk
      rcases mem_amodify _ _ _ pr hpr with ⟨pr0, h0, hcase⟩
      rcases hcase with ⟨hk0, he⟩ | ⟨hk0, he⟩
      · subst he
        exact absurd (hk0.symm.trans hk : j.creator_name = i.creator_name) hc
      · subst he
        rcases mem_ensureProv reg _ pr h0 with h3 | h3
        · exact hs.2 pr h3 hk
        · rw [h3] at hk
          exact absurd hk hc

theorem extract_preserves_settled (rest : List SnapItem) (S : Registry) (i : SnapItem)
    (hs : ItemSettled S i) (hne : ∀ j ∈ rest, itemKey j ≠ itemKey i) :
    ItemSettled (extractLLMData rest S) i := by
  induction rest generalizing S with
  | nil => exact hs
  | cons j rest2 ih =>
      rw [extract_cons]
      exact ih (updItem S j)
        (updItem_preserves_settled S i j (hne j (List.mem_cons_self _ _)) hs)
        (fun k hk => hne k (List.mem_cons_of_mem _ hk))

theorem extract_settles (data : List SnapItem) (reg : Registry)
    (hkeys : (data.map itemKey).Nodup)
    (hws : ∀ i ∈ data, ((metricWrites i).map Prod.fst).Nodup) :
    ∀ i ∈ data, ItemSettled (extractLLMData data reg) i := by
  induction data generalizing reg with
  | nil => intro i hi; exact absurd hi (List.not_mem_nil i)
  | cons j rest ih =>
      simp only [List.map_cons, List.nodup_cons] at hkeys
      intro i hi
      rcases List.mem_cons.mp hi with h1 | h1
      · subst h1
        rw [extract_cons]
        refine extract_preserves_settled rest (updItem reg i) i
          (updItem_settles reg i (hws i (List.mem_cons_self _ _))) ?_
        intro k hk hke
        exact hkeys.1 (hke ▸ List.mem_map_of_mem itemKey hk)
      · rw [extract_cons]
        exact ih (updItem reg j) hkeys.2
          (fun k hk => hws k (List.mem_cons_of_mem _ hk)) i h1

theorem extract_noop (data : List SnapItem) (S : Registry)
    (h : ∀ i ∈ data, ItemSettled S i) : extractLLMData data S = S := by
  induction data with
  | nil => rfl
  | cons i rest ih =>
      rw [extract_cons, upd_noop S i (h i (List.mem_cons_self _ _))]
      exact ih (fun k hk => h k (List.mem_cons_of_mem _ hk))

theorem filter_idem {α : Type} (q : α → Bool) (l : List α) :
    (l.filter q).filter q = l.filter q := by
  induction l with
  | nil => rfl
  | cons x t ih =>
      rw [List.filter_cons]
      by_cases hq : q x = true
      · rw [if_pos hq, List.filter_cons, if_pos hq, ih]
      · rw [if_neg hq, ih]

theorem alookup_filter_of_keep {β : Type} (l : List (String × β)) (q : String × β → Bool)
    (k : String) (v : β) (h : alookup l k = some v) (hq : q (k, v) = true) :
    alookup (l.filter q) k = some v := by
  induction l with
  | nil => simp [alookup] at h
  | cons p t ih =>
      rw [alookup_cons] at h
      rw [List.filter_cons]
      by_cases hp : p.1 = k
      · rw [if_pos hp] at h
        have hv := Option.some.inj h
        have hpe : p = (k, v) := by
          obtain ⟨p1, p2⟩ := p
          simp only at hp hv
          rw [hp, hv]
        rw [hpe, if_pos hq, alookup_cons, if_pos rfl]
      · rw [if_neg hp] at h
        by_cases hq2 : q p = true
        · rw [if_pos hq2, alookup_cons, if_neg hp]
          exact ih h
        · rw [if_neg hq2]
          exact ih h

theorem alookup_filter_nodup {β : Type} (l : List (String × β)) (q : String × β → Bool)
    (k : String) (v : β) (hnd : (l.map Prod.fst).Nodup)
    (h : alookup (l.filter q) k = some v) : alookup l k = some v := by
  induction l with
  | nil => simp [alookup] at h
  | cons p t ih =>
      simp only [List.map_cons, List.nodup_cons] at hnd
      rw [List.filter_cons] at h
      rw [alookup_cons]
      by_cases hq : q p = true
      · rw [if_pos hq, alookup_cons] at h
        by_cases hp : p.1 = k
        · rw [if_pos hp] at h
          rw [if_pos hp]
          exact h
        · rw [if_neg hp] at h
          rw [if_neg hp]
          exact ih hnd.2 h
      · rw [if_neg hq] at h
        by_cases hp : p.1 = k
        · have h1 : alookup t k = some v := ih hnd.2 h
          have h2 : k ∉ t.map Prod.fst := hp ▸ hnd.1
          rw [(alookup_none_iff t k).mpr h2] at h1
          exact absurd h1 (by simp)
        · rw [if_neg hp]
          exact ih hnd.2 h

theorem purgeEntry_some_shape (api : List String) (pr : String × LLMProviderRec)
    (pr' : String × LLMProviderRec) (h : purgeEntry api pr = some pr') :
    pr' = (pr.1, { pr.2 with models := pr.2.models.filter (keepModelEntry api pr.1) }) := by
  unfold purgeEntry at h
  by_cases he : (pr.2.models.filter (keepModelEntry api pr.1)).isEmpty = true
  · rw [if_pos he] at h
    exact absurd h (by simp)
  · rw [if_neg he] at h
    exact (Option.some.inj h).symm

theorem keepModelEntry_of_api (api : List String) (pn : String)
    (entry : String × LLMModelRec)
    (h : api.contains (modelKeyStr pn entry.1) = true) :
    keepModelEntry api pn entry = true := by
  unfold keepModelEntry
  rw [h]
  rfl

theorem purge_isSome (api : List String) (reg : Registry) (c n : String)
    (hkey : api.contains (modelKeyStr c n) = true) (prov : LLMProviderRec)
    (hl : alookup reg c = some prov) (hn : (alookup prov.models n).isSome) :
    (alookup (reg.filterMap (purgeEntry api)) c).isSome := by
  induction reg with
  | nil => simp [alookup] at hl
  | cons pr t ih =>
      rw [alookup_cons] at hl
      rw [List.filterMap_cons]
      by_cases hp : pr.1 = c
      · rw [if_pos hp] at hl
        have hprov := Option.some.inj hl
        rcases Option.isSome_iff_exists.mp hn with ⟨r, hr⟩
        have hkeep : keepModelEntry api pr.1 (n, r) = true := by
          apply keepModelEntry_of_api
          show api.contains (modelKeyStr pr.1 n) = true
          rw [hp]
          exact hkey
        have hflt : alookup (pr.2.models.filter (keepModelEntry api pr.1)) n = some r := by
          apply alookup_filter_of_keep
          · rw [hprov]; exact hr
          · exact hkeep
        have hne : (pr.2.models.filter (keepModelEntry api pr.1)).isEmpty ≠ true := by
          intro he
          rw [List.isEmpty_iff.mp he] at hflt
          simp [alookup] at hflt
        unfold purgeEntry
        rw [if_neg hne]
        rw [alookup_cons, if_pos hp]
        rfl
      · rw [if_neg hp] at hl
        cases hE : purgeEntry api pr with
        | none => exact ih hl
        | some pr' =>
            have := purgeEntry_some_shape api pr pr' hE
            rw [alookup_cons]
            have hp' : pr'.1 ≠ c := by rw [this]; exact hp
            rw [if_neg hp']
            exact ih hl

theorem purge_preserves_settled (data : List SnapItem) (reg : Registry) (i : SnapItem)
    (hi : i ∈ data) (hs : ItemSettled reg i) :
    ItemSettled (removeUnusedStaleLLMModels data reg) i := by
  have hkey : (apiKeysOf data).contains (modelKeyStr i.creator_name i.name) = true := by
    have hmem : modelKeyStr i.creator_name i.name ∈ apiKeysOf data :=
      List.mem_map_of_mem (fun item => modelKeyStr item.creator_name item.name) hi
    exact List.elem_iff.mpr hmem
  constructor
  · rcases Option.isSome_iff_exists.mp hs.1 with ⟨prov, hl⟩
    have h2 := hs.2 (i.creator_name, prov) (alookup_mem reg i.creator_name prov hl) rfl
    exact purge_isSome (apiKeysOf data) reg i.creator_name i.name hkey prov hl h2.1
  · intro pr' hpr' hk
    unfold removeUnusedStaleLLMModels at hpr'
    rcases List.mem_filterMap.mp hpr' with ⟨pr0, h0, hF⟩
    have hshape := purgeEntry_some_shape (apiKeysOf data) pr0 pr' hF
    have hk0 : pr0.1 = i.creator_name := by
      rw [hshape] at hk
      exact hk
    have h2 := hs.2 pr0 h0 hk0
    constructor
    · rcases Option.isSome_iff_exists.mp h2.1 with ⟨r, hr⟩
      have : alookup pr'.2.models i.name = some r := by
        rw [hshape]
        apply alookup_filter_of_keep _ _ _ _ hr
        apply keepModelEntry_of_api
        show (apiKeysOf data).contains (modelKeyStr pr0.1 i.name) = true
        rw [hk0]
        exact hkey
      rw [this]
      rfl
    · intro mr hmr hmk
      rw [hshape] at hmr
      have : mr ∈ pr0.2.models := List.mem_of_mem_filter hmr
      exact h2.2 mr this hmk

theorem purge_idem (data : List SnapItem) (reg : Registry) :
    removeUnusedStaleLLMModels data (removeUnusedStaleLLMModels data reg) =
      removeUnusedStaleLLMModels data reg := by
  unfold removeUnusedStaleLLMModels
  induction reg with
  | nil => rfl
  | cons pr t ih =>
      rw [List.filterMap_cons]
      cases hE : purgeEntry (apiKeysOf data) pr with
      | none => exact ih
      | some pr' =>
          rw [List.filterMap_cons]
          have hshape := purgeEntry_some_shape (apiKeysOf data) pr pr' hE
          have hE' : purgeEntry (apiKeysOf data) pr' = some pr' := by
            unfold purgeEntry at hE ⊢
            by_cases he : (pr.2.models.filter (keepModelEntry (apiKeysOf data) pr.1)).isEmpty = true
            · rw [if_pos he] at hE
              exact absurd hE (by simp)
            · have hm' : pr'.2.models.filter (keepModelEntry (apiKeysOf data) pr'.1) =
                  pr'.2.models := by
                rw [hshape]
                exact filter_idem _ _
              rw [hm']
              have hne : pr'.2.models.isEmpty ≠ true := by
                rw [hshape]
                exact he
              rw [if_neg hne]
          rw [hE', ih]

theorem ensureProv_keys_nodup (reg : Registry) (p : String)
    (h : (reg.map Prod.fst).Nodup) :
    ((ensureLLMProviderReg reg p).map Prod.fst).Nodup := by
  unfold ensureLLMProviderReg acontains
  cases hl : alookup reg p with
  | some w =>
      rw [if_pos (show (some w).isSome = true from rfl)]
      exact h
  | none =>
      rw [if_neg (by simp), List.map_append]
      have h1 : p ∉ reg.map Prod.fst := (alookup_none_iff reg p).mp hl
      simp [List.nodup_append, h, h1]

theorem ensureModelFn_keys_nodup (pn mn : String) (prov : LLMProviderRec)
    (h : (prov.models.map Prod.fst).Nodup) :
    ((ensureModelFn pn mn prov).models.map Prod.fst).Nodup := by
  unfold ensureModelFn acontains
  cases hl : alookup prov.models mn with
  | some w =>
      rw [if_pos (show (some w).isSome = true from rfl)]
      exact h
  | none =>
      rw [if_neg (by simp)]
      show ((prov.models ++ [(mn, _)]).map Prod.fst).Nodup
      rw [List.map_append]
      have h1 : mn ∉ prov.models.map Prod.fst := (alookup_none_iff prov.models mn).mp hl
      simp [List.nodup_append, h, h1]

theorem WF2_updItem (reg : Registry) (i : SnapItem) (hwf : WF2 reg) :
    WF2 (updItem reg i) := by
  rw [updItem_eq]
  constructor
  · rw [amodify_keys]
    exact ensureProv_keys_nodup reg _ hwf.1
  · intro pr hpr
    rcases mem_amodify _ _ _ pr hpr with ⟨pr0, h0, hc⟩
    have h0nd : (pr0.2.models.map Prod.fst).Nodup := by
      rcases mem_ensureProv reg _ pr0 h0 with h3 | h3
      · exact hwf.2 pr0 h3
      · rw [h3]
        exact List.nodup_nil
    rcases hc with ⟨hk0, he⟩ | ⟨hk0, he⟩
    · subst he
      show (((updProvFn i pr0.2).models).map Prod.fst).Nodup
      rw [updProvFn_models, amodify_keys]
      exact ensureModelFn_keys_nodup _ _ pr0.2 h0nd
    · subst he
      exact h0nd

theorem WF2_extract (data : List SnapItem) (reg : Registry) (hwf : WF2 reg) :
    WF2 (extractLLMData data reg) := by
  induction data generalizing reg with
  | nil => exact hwf
  | cons i rest ih =>
      rw [extract_cons]
      exact ih (updItem reg i) (WF2_updItem reg i hwf)

theorem WF2_tail (pr : String × LLMProviderRec) (t : Registry)
    (hwf : WF2 (pr :: t)) : WF2 t := by
  constructor
  · have := hwf.1
    rw [List.map_cons, List.nodup_cons] at this
    exact this.2
  · intro pr' h'
    exact hwf.2 pr' (List.mem_cons_of_mem _ h')

theorem purge_mono (data : List SnapItem) (reg : Registry) (p m : String)
    (r : LLMModelRec) (hwf : WF2 reg)
    (h : lookupModel (removeUnusedStaleLLMModels data reg) p m = some r) :
    lookupModel reg p m = some r := by
  unfold removeUnusedStaleLLMModels at h
  induction reg with
  | nil => simp [lookupModel, alookup, List.filterMap] at h
  | cons pr t ih =>
      have hknd := hwf.1
      rw [List.map_cons, List.nodup_cons] at hknd
      rw [List.filterMap_cons] at h
      cases hE : purgeEntry (apiKeysOf data) pr with
      | none =>
          rw [hE] at h
          have ht := ih (WF2_tail pr t hwf) h
          unfold lookupModel at ht ⊢
          rw [alookup_cons]
          by_cases hp : pr.1 = p
          · have h1 : alookup t p = none := (alookup_none_iff t p).mpr (hp ▸ hknd.1)
            rw [h1] at ht
            exact absurd ht (by simp)
          · rw [if_neg hp]
            exact ht
      | some pr' =>
          rw [hE] at h
          have hshape := purgeEntry_some_shape _ pr pr' hE
          unfold lookupModel at h ⊢
          rw [alookup_cons] at h ⊢
          by_cases hp : pr.1 = p
          · have hp' : pr'.1 = p := by rw [hshape]; exact hp
            rw [if_pos hp'] at h
            rw [if_pos hp]
            show alookup pr.2.models m = some r
            have hh : alookup pr'.2.models m = some r := h
            have hmods : pr'.2.models =
                pr.2.models.filter (keepModelEntry (apiKeysOf data) pr.1) := by
              rw [hshape]
            rw [hmods] at hh
            exact alookup_filter_nodup _ _ m r (hwf.2 pr (List.mem_cons_self _ _)) hh
          · have hp' : pr'.1 ≠ p := by rw [hshape]; exact hp
            rw [if_neg hp'] at h
            rw [if_neg hp]
            exact ih (WF2_tail pr t hwf) h

theorem populate_idem (data : List SnapItem) (reg : Registry)
    (hkeys : (data.map itemKey).Nodup)
    (hws : ∀ i ∈ data, ((metricWrites i).map Prod.fst).Nodup) :
    populateLLMData data (populateLLMData data reg) = populateLLMData data reg := by
  have hset := extract_settles data reg hkeys hws
  have hset2 : ∀ i ∈ data, ItemSettled (populateLLMData data reg) i := fun i hi =>
    purge_preserves_settled data _ i hi (hset i hi)
  show removeUnusedStaleLLMModels data
      (extractLLMData data (populateLLMData data reg)) = _
  rw [extract_noop data _ hset2]
  exact purge_idem data _

/-- Claim C8: refresh is idempotent — running `populateLLMData` twice with
the same snapshot yields the same registry as running it once (under the
JS-`Map` key-uniqueness invariants, and provided each item writes each
metric at most once) — and a refresh never modifies the `last_used` or
circuit-breaker health fields of any model that survives it. -/
theorem C8_refresh_idempotent_preserving (data : List SnapItem) (reg : Registry)
    (hkeys : (data.map itemKey).Nodup)
    (hws : ∀ i ∈ data, ((metricWrites i).map Prod.fst).Nodup)
    (hwf : WF2 reg) :
    populateLLMData data (populateLLMData data reg) = populateLLMData data reg ∧
    ∀ p m r r', lookupModel reg p m = some r →
      lookupModel (populateLLMData data reg) p m = some r' →
      healthProj r' = healthProj r := by
  refine ⟨populate_idem data reg hkeys hws, ?_⟩
  intro p m r r' h1 h2
  have h3 : lookupModel (extractLLMData data reg) p m = some r' :=
    purge_mono data _ p m r' (WF2_extract data reg hwf) h2
  rcases extract_proj data reg p m r h1 with ⟨r2, h4, h5⟩
  rw [h3] at h4
  rw [Option.some.inj h4]
  exact h5

theorem C8_refresh_idempotent_preserving_witness :
    populateLLMData [sampleItem] (populateLLMData [sampleItem] sampleReg)
      = populateLLMData [sampleItem] sampleReg ∧
    healthProj (updRecord sampleItem sampleRec) = healthProj sampleRec :=
  ⟨(C8_refresh_idempotent_preserving [sampleItem] sampleReg
      (by decide) (by decide) (by decide)).1,
   (C8_refresh_idempotent_preserving [sampleItem] sampleReg
      (by decide) (by decide) (by decide)).2
     "P" "m1" sampleRec (updRecord sampleItem sampleRec)
     (by decide) (by decide)⟩

end Refresh

end Theorems

end SmartRouter
